import Mathlib

set_option maxRecDepth 10000

/-!
Verification development for the Clojure smart-indent algorithm of
`cm6-clj-smart-indent.ts`.  The TypeScript source is shallowly embedded:
the text is a `List Char`, the per-character flag array is a `List Nat`,
JavaScript array indexing (which yields `undefined` out of range) is
modelled with `Option Char` and a default flag of `0`, and the generic
directional `scan` loop with stateful match closures is modelled by an
explicit fold over the list of visited indices with threaded state.
The mutually recursive `calculateIndent`/`dedent` pair is embedded with
an explicit fuel parameter; `calculateIndent` instantiates the fuel with
`text.length + 1`, which is proved sufficient below.
-/

def FLAG_ESCAPE : Nat := 1
def FLAG_COMMENT : Nat := 2
def FLAG_STRING : Nat := 4

structure FlaggedText where
  text : List Char
  flags : List Nat
deriving DecidableEq

structure ClassifierState where
  inString : Bool
  inComment : Bool
  escaped : Bool
deriving DecidableEq

def initState : ClassifierState := ⟨false, false, false⟩

/-- One step of the `flagCommentsAndStrings` loop: given the state before a
character, the flag assigned to that character and the state after it. -/
def classifyChar (s : ClassifierState) (c : Char) : Nat × ClassifierState :=
  if s.inComment then
    (FLAG_COMMENT, { s with inComment := c ≠ '\n' })
  else if s.escaped then
    (FLAG_ESCAPE, { s with escaped := false })
  else if c = '\\' then
    (0, { s with escaped := true })
  else if s.inString then
    if c = '"' then (0, { s with inString := false })
    else (FLAG_STRING, s)
  else if c = '"' then
    (FLAG_STRING, { s with inString := true })
  else if c = ';' then
    (FLAG_COMMENT, { s with inComment := true })
  else (0, s)

def classifyFrom (s : ClassifierState) : List Char → List Nat
  | [] => []
  | c :: cs => (classifyChar s c).1 :: classifyFrom (classifyChar s c).2 cs

/-- The classifier state after consuming a list of characters. -/
def stateAfter (s : ClassifierState) : List Char → ClassifierState
  | [] => s
  | c :: cs => stateAfter (classifyChar s c).2 cs

def flagCommentsAndStrings (text : List Char) : FlaggedText :=
  { text := text, flags := classifyFrom initState text }

/-- JavaScript `text[i]`: `undefined` (here `none`) when out of range. -/
def charAt (t : List Char) (i : Int) : Option Char :=
  if i < 0 then none else t[i.toNat]?

/-- JavaScript `flags[i] & flag` treats an out-of-range read as `0`. -/
def flagAt (fl : List Nat) (i : Int) : Nat :=
  if i < 0 then 0 else (fl[i.toNat]?).getD 0

def hasFlag (flags : List Nat) (index : Int) (flag : Nat) : Bool :=
  (flagAt flags index &&& flag) ≠ 0

def isIgnored (ft : FlaggedText) (index : Int) : Bool :=
  hasFlag ft.flags index (FLAG_STRING ||| FLAG_COMMENT ||| FLAG_ESCAPE)

def inString (ft : FlaggedText) (index : Int) : Bool :=
  hasFlag ft.flags index FLAG_STRING

def inComment (ft : FlaggedText) (index : Int) : Bool :=
  hasFlag ft.flags index FLAG_COMMENT

/-- Search downward from position `n` for a newline character. -/
def findNewlineDown (t : List Char) : Nat → Int
  | 0 => if charAt t 0 = some '\n' then 0 else -1
  | n + 1 => if charAt t ((n : Int) + 1) = some '\n' then (n : Int) + 1 else findNewlineDown t n

/-- JavaScript `text.lastIndexOf("\n", index)`. -/
def lastIndexOfNewline (t : List Char) (index : Int) : Int :=
  if t.length = 0 then -1
  else findNewlineDown t (min (max index 0) ((t.length : Int) - 1)).toNat

def getLineStart (t : List Char) (index : Int) : Int :=
  if lastIndexOfNewline t index = -1 then 0 else lastIndexOfNewline t index + 1

def getColumn (t : List Char) (index : Int) : Int :=
  index - getLineStart t index

def isWhitespace (c : Option Char) : Bool :=
  c = some ' ' || c = some ',' || c = some '\n' || c = some '\r' || c = some '\t'

def notWhitespace (c : Option Char) : Bool := !isWhitespace c

def isSpaceOrComment (ft : FlaggedText) (i : Int) : Bool :=
  isWhitespace (charAt ft.text i) || inComment ft i

def isOpenDelimiter (c : Option Char) : Bool :=
  c = some '(' || c = some '[' || c = some '\x7b'

def isCloseDelimiter (c : Option Char) : Bool :=
  c = some ')' || c = some ']' || c = some '\x7d'

/-- The inclusive integer range `[a..b]` (empty when `b < a`). -/
def intRange (a b : Int) : List Int :=
  (List.range (b - a + 1).toNat).map (fun k : Nat => a + (k : Int))

/-- The indices visited by `scan(index, limit)`, in visiting order:
forward when `index < limit`, backward otherwise, both inclusive. -/
def scanIdxs (index limit : Int) : List Int :=
  if index < limit then intRange index limit else (intRange limit index).reverse

/-- The body of the `scan` loop over an explicit index list, threading the
state captured by the source's stateful match closures. -/
def scanGo {σ : Type} (ft : FlaggedText) (skip : FlaggedText → Int → Bool)
    (matchFn : Option Char → Int → σ → Bool × σ) : List Int → σ → Int × σ
  | [], s => (-1, s)
  | i :: is, s =>
    if skip ft i then scanGo ft skip matchFn is s
    else
      if (matchFn (charAt ft.text i) i s).1 then (i, (matchFn (charAt ft.text i) i s).2)
      else scanGo ft skip matchFn is (matchFn (charAt ft.text i) i s).2

def scan {σ : Type} (ft : FlaggedText) (index limit : Int) (skip : FlaggedText → Int → Bool)
    (matchFn : Option Char → Int → σ → Bool × σ) (s : σ) : Int × σ :=
  scanGo ft skip matchFn (scanIdxs index limit) s

/-- `scan` with a stateless match predicate. -/
def scanP (ft : FlaggedText) (index limit : Int) (skip : FlaggedText → Int → Bool)
    (matchP : Option Char → Int → Bool) : Int :=
  (scan ft index limit skip (fun c i (_ : Unit) => (matchP c i, ())) ()).1

def findLastCodeCharIdx (ft : FlaggedText) : Int :=
  scanP ft ((ft.text.length : Int) - 1) 0 isIgnored (fun c _ => notWhitespace c)

/-- The match closure of `findUnmatchedDelimiterInLine`; the state is
`(unclosedOpen, unopenedClose, depth)`. -/
def udMatch : Option Char → Int → Int × Int × Int → Bool × (Int × Int × Int) :=
  fun c i s =>
    if isOpenDelimiter c then
      if s.2.2 = 0 then (true, (i, s.2.1, s.2.2))
      else (false, (s.1, if s.2.2 - 1 = 0 then -1 else s.2.1, s.2.2 - 1))
    else if isCloseDelimiter c then
      (false, (s.1, if s.2.2 + 1 = 1 then i else s.2.1, s.2.2 + 1))
    else (false, s)

def findUnmatchedDelimiterInLine (ft : FlaggedText) (index limit : Int) : Int :=
  let r := scan ft index limit isIgnored udMatch (-1, -1, 0)
  if r.1 ≠ -1 then r.2.1 else r.2.2.1

def skipSpaceAndComments (ft : FlaggedText) (index : Int) : Int :=
  if index ≥ (ft.text.length : Int) then -1
  else scanP ft index ((ft.text.length : Int) - 1) isSpaceOrComment (fun _ _ => true)

/-- The depth update performed at the start of `isEndOfElement`. -/
def elemDepth (c : Option Char) (depth : Int) : Int :=
  if isOpenDelimiter c then depth + 1
  else if isCloseDelimiter c then depth - 1 else depth

/-- The `isEndOfElement` closure of `readElement`; the state is the depth. -/
def isEndOfElementM (ft : FlaggedText) : Option Char → Int → Int → Bool × Int :=
  fun c i depth =>
    if elemDepth c depth = 0 ∧
        (i = (ft.text.length : Int) - 1 ∨ isWhitespace (charAt ft.text (i + 1))) then
      (true, elemDepth c depth)
    else (decide (elemDepth c depth < 0), elemDepth c depth)

/-- JavaScript `text.slice(start, stop)` for the non-negative arguments used
by the source. -/
def listSlice (t : List Char) (start stop : Int) : List Char :=
  (t.take stop.toNat).drop start.toNat

def readElement (ft : FlaggedText) (index : Int) : List Char :=
  if index ≥ (ft.text.length : Int) then []
  else
    let lastCharIdx := (scan ft index ((ft.text.length : Int) - 1) isIgnored (isEndOfElementM ft) 0).1
    listSlice ft.text index (lastCharIdx + 1)

def BODY_FORMS : List String :=
  ["as->", "binding", "bound-fn", "case", "catch", "comment", "cond", "cond->", "cond->>", "condp",
   "def", "definterface", "defmethod", "defn", "defn-", "defmacro", "defprotocol", "defrecord",
   "defstruct", "deftype", "do", "doseq", "dotimes", "doto", "extend", "extend-protocol",
   "extend-type", "fn", "for", "future", "if", "if-let", "if-not", "if-some", "let", "letfn",
   "locking", "loop", "ns", "proxy", "reify", "struct-map", "some->", "some->>", "try", "when",
   "when-first", "when-let", "when-not", "when-some", "while", "with-bindings", "with-bindings*",
   "with-in-str", "with-loading-context", "with-local-vars", "with-meta", "with-open",
   "with-out-str", "with-precision", "with-redefs", "with-redefs-fn"]

def formIndentation (ft : FlaggedText) (openParenIdx : Int) : Int :=
  let openCol := getColumn ft.text openParenIdx
  if charAt ft.text openParenIdx = some '(' then
    let firstElemIdx := skipSpaceAndComments ft (openParenIdx + 1)
    if firstElemIdx = -1 then openCol + 1
    else
      let element := readElement ft firstElemIdx
      let firstElemEnd := firstElemIdx + (element.length : Int)
      if BODY_FORMS.contains (String.mk element) then openCol + 2
      else
        let firstArgIdx := skipSpaceAndComments ft firstElemEnd
        if firstArgIdx ≠ -1 then
          if getLineStart ft.text firstArgIdx = getLineStart ft.text openParenIdx then
            getColumn ft.text firstArgIdx
          else openCol + 1
        else openCol + 1
  else openCol + 1

/-- The match closure of `findOpenDelimiter`; the state is the depth. -/
def fodMatch : Option Char → Int → Int → Bool × Int :=
  fun c _ depth =>
    if isCloseDelimiter c then (false, depth + 1)
    else if isOpenDelimiter c then
      if depth = 0 then (true, depth) else (false, depth - 1)
    else (false, depth)

def findOpenDelimiter (ft : FlaggedText) (index : Int) (limit : Int := 0) : Int :=
  (scan ft index limit isIgnored fodMatch 0).1

/-- Membership in the character class of the JavaScript regex `\s`. -/
def isRegexSpace (c : Char) : Bool :=
  c = ' ' || c = '\t' || c = '\n' || c = '\r' || c.val = 0x0B || c.val = 0x0C ||
  c.val = 0xA0 || c.val = 0x1680 || (0x2000 ≤ c.val && c.val ≤ 0x200A) ||
  c.val = 0x2028 || c.val = 0x2029 || c.val = 0x202F || c.val = 0x205F ||
  c.val = 0x3000 || c.val = 0xFEFF

/-- `line.match(/^\s*/)![0].length`. -/
def leadingWhitespaceLength (l : List Char) : Nat :=
  (l.takeWhile isRegexSpace).length

/-- `calculateIndent` with the `dedent` recursion made structural on a fuel
argument.  A `dedent` step replaces everything from the matching opener on by
the sentinel symbol character under the original flag array, exactly as
`text.slice(0, matchingOpenIdx) + "$"` does in the source. -/
def calculateIndentF : Nat → FlaggedText → Int
  | 0, _ => 0
  | fuel + 1, ft =>
    let lastCodeCharIdx := findLastCodeCharIdx ft
    if lastCodeCharIdx = -1 then 0
    else
      let lastCodeLineStart := getLineStart ft.text lastCodeCharIdx
      let unmatchedDelimiterIdx := findUnmatchedDelimiterInLine ft lastCodeCharIdx lastCodeLineStart
      let viaDelimiter : Option Int :=
        if unmatchedDelimiterIdx ≠ -1 then
          let c := charAt ft.text unmatchedDelimiterIdx
          if isOpenDelimiter c then some (formIndentation ft unmatchedDelimiterIdx)
          else if isCloseDelimiter c then
            let matchingOpenIdx := findOpenDelimiter ft (unmatchedDelimiterIdx - 1)
            if matchingOpenIdx ≠ -1 then
              some (calculateIndentF fuel
                { text := listSlice ft.text 0 matchingOpenIdx ++ ['$'], flags := ft.flags })
            else none
          else none
        else none
      viaDelimiter.getD
        ((leadingWhitespaceLength (listSlice ft.text lastCodeLineStart (lastCodeCharIdx + 1)) : Int))

def calculateIndent (ft : FlaggedText) : Int :=
  calculateIndentF (ft.text.length + 1) ft

def dedent (ft : FlaggedText) (index : Int) : Int :=
  calculateIndent { text := listSlice ft.text 0 index ++ ['$'], flags := ft.flags }

def calculateIndentation (pfx : List Char) : Int :=
  if pfx = [] then 0
  else
    let ft := flagCommentsAndStrings pfx
    if inString ft ((pfx.length : Int) - 1) then 0
    else calculateIndent ft

-- Sanity checks mirroring the repository's own test suite.
example : calculateIndentation [] = 0 := by decide
example : calculateIndentation ("   ".toList) = 0 := by decide
example : calculateIndentation ("(foo bar ".toList) = 5 := by decide
example : calculateIndentation ("(foo".toList) = 1 := by decide
example : calculateIndentation ("[foo ".toList) = 1 := by decide
example : calculateIndentation ("(defn foo [x]".toList) = 2 := by decide
example : calculateIndentation ("(let ".toList) = 2 := by decide
example : calculateIndentation ("(println \"Hello".toList) = 0 := by decide
example : calculateIndentation ("  (foo)".toList) = 2 := by decide
example : calculateIndentation ("(foo\n  (bar\n    baz)".toList) = 2 := by decide

/-! ### Basic facts about characters, indices and ranges -/

theorem charAt_neg {t : List Char} {i : Int} (h : i < 0) : charAt t i = none := by
  simp [charAt, h]

theorem charAt_eq_some {t : List Char} {i : Int} {c : Char} (h : charAt t i = some c) :
    0 ≤ i ∧ i < (t.length : Int) := by
  unfold charAt at h
  split at h
  · exact absurd h (by simp)
  · rename_i hi
    have hlt : i.toNat < t.length := by
      by_contra hge
      rw [List.getElem?_eq_none (by omega)] at h
      exact absurd h (by simp)
    omega

theorem charAt_ne_none_bounds {t : List Char} {i : Int} (h : charAt t i ≠ none) :
    0 ≤ i ∧ i < (t.length : Int) := by
  cases hc : charAt t i with
  | none => exact absurd hc h
  | some c => exact charAt_eq_some hc

theorem isOpenDelimiter_none : isOpenDelimiter none = false := rfl

theorem isCloseDelimiter_none : isCloseDelimiter none = false := rfl

theorem open_close_disjoint {c : Option Char} (h1 : isOpenDelimiter c = true)
    (h2 : isCloseDelimiter c = true) : False := by
  cases c with
  | none => simp [isOpenDelimiter] at h1
  | some ch =>
    have h1' : ch = '(' ∨ ch = '[' ∨ ch = '\x7b' := by
      simpa [isOpenDelimiter, or_assoc] using h1
    have h2' : ch = ')' ∨ ch = ']' ∨ ch = '\x7d' := by
      simpa [isCloseDelimiter, or_assoc] using h2
    rcases h1' with rfl | rfl | rfl <;> rcases h2' with h | h | h <;> exact absurd h (by decide)

theorem isOpenDelimiter_bounds {t : List Char} {i : Int}
    (h : isOpenDelimiter (charAt t i) = true) : 0 ≤ i ∧ i < (t.length : Int) := by
  apply charAt_ne_none_bounds
  intro hn
  rw [hn] at h
  exact absurd h (by simp [isOpenDelimiter_none])

theorem isCloseDelimiter_bounds {t : List Char} {i : Int}
    (h : isCloseDelimiter (charAt t i) = true) : 0 ≤ i ∧ i < (t.length : Int) := by
  apply charAt_ne_none_bounds
  intro hn
  rw [hn] at h
  exact absurd h (by simp [isCloseDelimiter_none])

theorem intRange_mem {a b x : Int} (h : x ∈ intRange a b) : a ≤ x ∧ x ≤ b := by
  simp only [intRange, List.mem_map, List.mem_range] at h
  obtain ⟨k, hk, rfl⟩ := h
  omega

theorem scanIdxs_mem {index limit x : Int} (h : x ∈ scanIdxs index limit) :
    min index limit ≤ x ∧ x ≤ max index limit := by
  unfold scanIdxs at h
  split at h
  · have := intRange_mem h
    omega
  · rw [List.mem_reverse] at h
    have := intRange_mem h
    omega

theorem intRange_append {a b c : Int} (h1 : a ≤ b + 1) (h2 : b ≤ c) :
    intRange a c = intRange a b ++ intRange (b + 1) c := by
  unfold intRange
  have hn : (c - a + 1).toNat = (b - a + 1).toNat + (c - (b + 1) + 1).toNat := by omega
  rw [hn, List.range_add, List.map_append, List.map_map]
  congr 1
  apply List.map_congr_left
  intro k hk
  simp only [Function.comp_apply]
  omega

/-! ### General lemmas about the scan primitive -/

theorem scanGo_result {σ : Type} (ft : FlaggedText) (skip : FlaggedText → Int → Bool)
    (matchFn : Option Char → Int → σ → Bool × σ) (P : Int → Prop)
    (hP : ∀ i s, (matchFn (charAt ft.text i) i s).1 = true → P i) :
    ∀ (L : List Int) (s : σ),
      (scanGo ft skip matchFn L s).1 = -1 ∨
      ((scanGo ft skip matchFn L s).1 ∈ L ∧
        skip ft (scanGo ft skip matchFn L s).1 = false ∧
        P (scanGo ft skip matchFn L s).1) := by
  intro L
  induction L with
  | nil => intro s; exact Or.inl rfl
  | cons i is ih =>
    intro s
    rw [scanGo]
    by_cases hsk : skip ft i
    · rw [if_pos hsk]
      rcases ih s with h | ⟨h1, h2, h3⟩
      · exact Or.inl h
      · exact Or.inr ⟨List.mem_cons_of_mem _ h1, h2, h3⟩
    · rw [if_neg hsk]
      by_cases hm : (matchFn (charAt ft.text i) i s).1 = true
      · rw [if_pos hm]
        exact Or.inr ⟨List.mem_cons_self _ _, by simpa using hsk, hP i s hm⟩
      · rw [if_neg hm]
        rcases ih (matchFn (charAt ft.text i) i s).2 with h | ⟨h1, h2, h3⟩
        · exact Or.inl h
        · exact Or.inr ⟨List.mem_cons_of_mem _ h1, h2, h3⟩

theorem scanGo_congr {σ : Type} (ft1 ft2 : FlaggedText)
    (skip1 skip2 : FlaggedText → Int → Bool)
    (m1 m2 : Option Char → Int → σ → Bool × σ) (L : List Int)
    (hskip : ∀ i ∈ L, skip1 ft1 i = skip2 ft2 i)
    (hmatch : ∀ i ∈ L, skip1 ft1 i = false →
      ∀ s, m1 (charAt ft1.text i) i s = m2 (charAt ft2.text i) i s) :
    ∀ s, scanGo ft1 skip1 m1 L s = scanGo ft2 skip2 m2 L s := by
  induction L with
  | nil => intro s; rfl
  | cons i is ih =>
    intro s
    have hsk := hskip i (List.mem_cons_self _ _)
    rw [scanGo, scanGo, ← hsk]
    by_cases h : skip1 ft1 i
    · rw [if_pos h, if_pos h]
      exact ih (fun j hj => hskip j (List.mem_cons_of_mem _ hj))
        (fun j hj => hmatch j (List.mem_cons_of_mem _ hj)) s
    · rw [if_neg h, if_neg h]
      have hm := hmatch i (List.mem_cons_self _ _) (by simpa using h) s
      rw [← hm]
      by_cases hb : (m1 (charAt ft1.text i) i s).1
      · rw [if_pos hb, if_pos hb]
      · rw [if_neg hb, if_neg hb]
        exact ih (fun j hj => hskip j (List.mem_cons_of_mem _ hj))
          (fun j hj => hmatch j (List.mem_cons_of_mem _ hj)) _

theorem scanGo_append {σ : Type} (ft : FlaggedText) (skip : FlaggedText → Int → Bool)
    (matchFn : Option Char → Int → σ → Bool × σ) (L1 L2 : List Int)
    (h : (-1 : Int) ∉ L1) :
    ∀ s : σ, scanGo ft skip matchFn (L1 ++ L2) s =
      if (scanGo ft skip matchFn L1 s).1 = -1 then
        scanGo ft skip matchFn L2 (scanGo ft skip matchFn L1 s).2
      else scanGo ft skip matchFn L1 s := by
  induction L1 with
  | nil => intro s; simp [scanGo]
  | cons i is ih =>
    intro s
    have hi : i ≠ -1 := fun hc => h (hc ▸ List.mem_cons_self _ _)
    have his : (-1 : Int) ∉ is := fun hc => h (List.mem_cons_of_mem _ hc)
    rw [List.cons_append, scanGo, scanGo]
    by_cases hsk : skip ft i
    · rw [if_pos hsk, if_pos hsk]
      exact ih his s
    · rw [if_neg hsk, if_neg hsk]
      by_cases hm : (matchFn (charAt ft.text i) i s).1
      · rw [if_pos hm, if_pos hm, if_neg hi]
      · rw [if_neg hm, if_neg hm]
        exact ih his _

theorem scanGo_nomatch {σ : Type} (ft : FlaggedText) (skip : FlaggedText → Int → Bool)
    (matchFn : Option Char → Int → σ → Bool × σ) (L : List Int)
    (h : ∀ i ∈ L, skip ft i = true ∨ ∀ s : σ, matchFn (charAt ft.text i) i s = (false, s)) :
    ∀ s : σ, scanGo ft skip matchFn L s = (-1, s) := by
  induction L with
  | nil => intro s; rfl
  | cons i is ih =>
    intro s
    rw [scanGo]
    rcases h i (List.mem_cons_self _ _) with hsk | hm
    · rw [if_pos hsk]
      exact ih (fun j hj => h j (List.mem_cons_of_mem _ hj)) s
    · by_cases hsk : skip ft i
      · rw [if_pos hsk]
        exact ih (fun j hj => h j (List.mem_cons_of_mem _ hj)) s
      · rw [if_neg hsk, hm s]
        simp only [if_neg Bool.false_ne_true]
        exact ih (fun j hj => h j (List.mem_cons_of_mem _ hj)) s

/-! ### Line starts and columns -/

theorem findNewlineDown_spec (t : List Char) : ∀ n : Nat,
    findNewlineDown t n = -1 ∨
    (0 ≤ findNewlineDown t n ∧ findNewlineDown t n ≤ (n : Int) ∧
      charAt t (findNewlineDown t n) = some '\n') := by
  intro n
  induction n with
  | zero =>
    rw [findNewlineDown]
    split
    · rename_i h
      exact Or.inr ⟨le_refl _, le_refl _, h⟩
    · exact Or.inl rfl
  | succ n ih =>
    rw [findNewlineDown]
    split
    · rename_i h
      exact Or.inr ⟨by omega, by omega, by exact_mod_cast h⟩
    · rcases ih with h | ⟨h1, h2, h3⟩
      · exact Or.inl h
      · exact Or.inr ⟨h1, by omega, h3⟩

theorem lastIndexOfNewline_spec (t : List Char) (index : Int) :
    lastIndexOfNewline t index = -1 ∨
    (0 ≤ lastIndexOfNewline t index ∧
      lastIndexOfNewline t index ≤ min (max index 0) ((t.length : Int) - 1) ∧
      1 ≤ t.length ∧
      charAt t (lastIndexOfNewline t index) = some '\n') := by
  unfold lastIndexOfNewline
  split
  · exact Or.inl rfl
  · rename_i h
    rcases findNewlineDown_spec t (min (max index 0) ((t.length : Int) - 1)).toNat with
      hn | ⟨h1, h2, h3⟩
    · exact Or.inl hn
    · right
      refine ⟨h1, ?_, by omega, h3⟩
      have hmm : (0 : Int) ≤ min (max index 0) ((t.length : Int) - 1) := by
        have : (1 : Int) ≤ t.length := by exact_mod_cast Nat.one_le_iff_ne_zero.mpr h
        omega
      omega

theorem getLineStart_nonneg (t : List Char) (i : Int) : 0 ≤ getLineStart t i := by
  unfold getLineStart
  split
  · omega
  · rcases lastIndexOfNewline_spec t i with hc | ⟨h1, _, _, _⟩
    · rename_i hne; exact absurd hc hne
    · omega

theorem getLineStart_le {t : List Char} {i : Int} (h0 : 0 ≤ i)
    (h : charAt t i ≠ some '\n') : getLineStart t i ≤ i := by
  unfold getLineStart
  split
  · omega
  · rcases lastIndexOfNewline_spec t i with hc | ⟨h1, h2, hlen, h3⟩
    · rename_i hne; exact absurd hc hne
    · have hne2 : lastIndexOfNewline t i ≠ i := fun hc => h (hc ▸ h3)
      have hmax : max i 0 = i := by omega
      rw [hmax] at h2
      have : lastIndexOfNewline t i ≤ i := le_trans h2 (by omega)
      omega

/-! ### Bounds on search results -/

theorem findOpenDelimiter_spec (ft : FlaggedText) (index limit : Int) :
    findOpenDelimiter ft index limit = -1 ∨
    (findOpenDelimiter ft index limit ∈ scanIdxs index limit ∧
      isIgnored ft (findOpenDelimiter ft index limit) = false ∧
      isOpenDelimiter (charAt ft.text (findOpenDelimiter ft index limit)) = true) := by
  have h := scanGo_result ft isIgnored fodMatch
    (fun i => isOpenDelimiter (charAt ft.text i) = true) ?_ (scanIdxs index limit) 0
  · exact h
  · intro i s hm
    unfold fodMatch at hm
    split at hm
    · simp at hm
    · split at hm
      · split at hm
        · assumption
        · simp at hm
      · simp at hm

theorem findLastCodeCharIdx_spec (ft : FlaggedText) :
    findLastCodeCharIdx ft = -1 ∨
    (findLastCodeCharIdx ft ∈ scanIdxs ((ft.text.length : Int) - 1) 0 ∧
      isIgnored ft (findLastCodeCharIdx ft) = false ∧
      notWhitespace (charAt ft.text (findLastCodeCharIdx ft)) = true) := by
  have h := scanGo_result ft isIgnored (fun c i (_ : Unit) => (notWhitespace c, ()))
    (fun i => notWhitespace (charAt ft.text i) = true) ?_
    (scanIdxs ((ft.text.length : Int) - 1) 0) ()
  · exact h
  · intro i s hm
    simpa using hm

theorem isIgnored_neg (ft : FlaggedText) {i : Int} (h : i < 0) : isIgnored ft i = false := by
  simp [isIgnored, hasFlag, flagAt, h]

theorem findLastCodeCharIdx_empty (ft : FlaggedText) (h : ft.text = []) :
    findLastCodeCharIdx ft = -1 := by
  unfold findLastCodeCharIdx scanP scan
  rw [h]
  have hrange : scanIdxs ((([] : List Char).length : Int) - 1) 0 = [-1, 0] := by decide
  rw [hrange, scanGo]
  rw [isIgnored_neg ft (by norm_num)]
  simp [charAt_neg, notWhitespace, isWhitespace]

theorem findLastCodeCharIdx_bounds {ft : FlaggedText} (h : findLastCodeCharIdx ft ≠ -1) :
    (0 ≤ findLastCodeCharIdx ft ∧ findLastCodeCharIdx ft < (ft.text.length : Int)) ∧
      isIgnored ft (findLastCodeCharIdx ft) = false ∧
      notWhitespace (charAt ft.text (findLastCodeCharIdx ft)) = true := by
  rcases findLastCodeCharIdx_spec ft with hc | ⟨h1, h2, h3⟩
  · exact absurd hc h
  · have hb := scanIdxs_mem h1
    refine ⟨?_, h2, h3⟩
    by_cases hlen : ft.text = []
    · exact absurd (findLastCodeCharIdx_empty ft hlen) h
    · have : 1 ≤ ft.text.length := by
        cases hx : ft.text with
        | nil => exact absurd hx hlen
        | cons a l => simp [hx]
      omega

/-! ### The dedent step strictly shrinks the text -/

theorem dedent_shrinks {ft : FlaggedText} {uDI m : Int}
    (hclose : isCloseDelimiter (charAt ft.text uDI) = true)
    (hm : findOpenDelimiter ft (uDI - 1) 0 = m) (hm1 : m ≠ -1) :
    0 ≤ m ∧ m + 1 ≤ uDI ∧ m + 1 < (ft.text.length : Int) := by
  rcases findOpenDelimiter_spec ft (uDI - 1) 0 with hc | ⟨h1, h2, h3⟩
  · rw [hm] at hc
    exact absurd hc hm1
  · rw [hm] at h1 h3
    have hb := scanIdxs_mem h1
    have hu := isCloseDelimiter_bounds hclose
    by_cases hcase : uDI - 1 < 0
    · exfalso
      have hm0 : m = 0 := by omega
      have hu0 : uDI = 0 := by omega
      rw [hm0, ← hu0] at h3
      exact open_close_disjoint h3 hclose
    · have : m ≤ uDI - 1 := by omega
      have : 0 ≤ m := by omega
      refine ⟨by omega, by omega, by omega⟩

theorem listSlice_zero (t : List Char) (m : Int) : listSlice t 0 m = t.take m.toNat := by
  unfold listSlice
  simp

theorem trunc_length {t : List Char} {m : Int} (h0 : 0 ≤ m) (h : m ≤ (t.length : Int)) :
    (listSlice t 0 m ++ ['$']).length = m.toNat + 1 := by
  rw [listSlice_zero]
  simp [List.length_take]
  omega

/-! ### Fuel sufficiency: the recursion terminates within `length + 1` steps -/

theorem calculateIndentF_fuel_congr : ∀ (n : Nat) (ft : FlaggedText), ft.text.length ≤ n →
    ∀ f1 f2 : Nat, ft.text.length + 1 ≤ f1 → ft.text.length + 1 ≤ f2 →
    calculateIndentF f1 ft = calculateIndentF f2 ft := by
  intro n
  induction n with
  | zero =>
    intro ft hlen f1 f2 hf1 hf2
    have hempty : ft.text = [] := List.length_eq_zero.mp (by omega)
    obtain ⟨g1, rfl⟩ : ∃ g, f1 = g + 1 := ⟨f1 - 1, by omega⟩
    obtain ⟨g2, rfl⟩ : ∃ g, f2 = g + 1 := ⟨f2 - 1, by omega⟩
    rw [calculateIndentF, calculateIndentF, findLastCodeCharIdx_empty ft hempty]
    simp
  | succ n ih =>
    intro ft hlen f1 f2 hf1 hf2
    obtain ⟨g1, rfl⟩ : ∃ g, f1 = g + 1 := ⟨f1 - 1, by omega⟩
    obtain ⟨g2, rfl⟩ : ∃ g, f2 = g + 1 := ⟨f2 - 1, by omega⟩
    rw [calculateIndentF, calculateIndentF]
    by_cases hlast : findLastCodeCharIdx ft = -1
    · simp [hlast]
    · simp only [hlast, if_false]
      by_cases hu : findUnmatchedDelimiterInLine ft (findLastCodeCharIdx ft)
          (getLineStart ft.text (findLastCodeCharIdx ft)) = -1
      · simp [hu]
      · simp only [hu, ne_eq, not_false_eq_true, if_true]
        by_cases hop : isOpenDelimiter (charAt ft.text (findUnmatchedDelimiterInLine ft
            (findLastCodeCharIdx ft) (getLineStart ft.text (findLastCodeCharIdx ft)))) = true
        · simp [hop]
        · simp only [hop, if_false]
          by_cases hcl : isCloseDelimiter (charAt ft.text (findUnmatchedDelimiterInLine ft
              (findLastCodeCharIdx ft) (getLineStart ft.text (findLastCodeCharIdx ft)))) = true
          · simp only [hcl, if_true]
            by_cases hmo : findOpenDelimiter ft (findUnmatchedDelimiterInLine ft
                (findLastCodeCharIdx ft) (getLineStart ft.text (findLastCodeCharIdx ft)) - 1) = -1
            · simp [hmo]
            · simp only [hmo, ne_eq, not_false_eq_true, if_true, Option.getD_some]
              obtain ⟨hs0, hs1, hs2⟩ := dedent_shrinks hcl rfl hmo
              have hlen' : (listSlice ft.text 0 (findOpenDelimiter ft
                  (findUnmatchedDelimiterInLine ft (findLastCodeCharIdx ft)
                    (getLineStart ft.text (findLastCodeCharIdx ft)) - 1)) ++ ['$']).length =
                  (findOpenDelimiter ft (findUnmatchedDelimiterInLine ft (findLastCodeCharIdx ft)
                    (getLineStart ft.text (findLastCodeCharIdx ft)) - 1)).toNat + 1 :=
                trunc_length hs0 (by omega)
              apply ih
              · rw [hlen']
                omega
              · rw [hlen']
                omega
              · rw [hlen']
                omega
          · simp [hop, hcl]

theorem calculateIndentF_eq_calculateIndent {ft : FlaggedText} {f : Nat}
    (h : ft.text.length + 1 ≤ f) : calculateIndentF f ft = calculateIndent ft :=
  calculateIndentF_fuel_congr ft.text.length ft le_rfl f (ft.text.length + 1) h le_rfl

theorem calculateIndentation_eq_calculateIndent {pfx : List Char} (h0 : pfx ≠ [])
    (h1 : inString (flagCommentsAndStrings pfx) ((pfx.length : Int) - 1) = false) :
    calculateIndentation pfx = calculateIndent (flagCommentsAndStrings pfx) := by
  unfold calculateIndentation
  simp [h0, h1]

/-- Unfolding `calculateIndent` along the unmatched-opener branch. -/
theorem calculateIndent_opener {ft : FlaggedText} {uDI : Int}
    (hlast : findLastCodeCharIdx ft ≠ -1)
    (hu : findUnmatchedDelimiterInLine ft (findLastCodeCharIdx ft)
      (getLineStart ft.text (findLastCodeCharIdx ft)) = uDI)
    (hop : isOpenDelimiter (charAt ft.text uDI) = true) :
    calculateIndent ft = formIndentation ft uDI := by
  have huDI : uDI ≠ -1 := by
    have := (isOpenDelimiter_bounds hop).1
    omega
  rw [calculateIndent, calculateIndentF]
  simp [hlast, hu, huDI, hop]

/-- Unfolding `calculateIndent` along the unmatched-closer branch: the result
is a recursive run on the text truncated to `matchingOpenIdx` characters with
the sentinel `'$'` appended, under the original flags. -/
theorem calculateIndent_closer {ft : FlaggedText} {uDI m : Int}
    (hlast : findLastCodeCharIdx ft ≠ -1)
    (hu : findUnmatchedDelimiterInLine ft (findLastCodeCharIdx ft)
      (getLineStart ft.text (findLastCodeCharIdx ft)) = uDI)
    (hcl : isCloseDelimiter (charAt ft.text uDI) = true)
    (hm : findOpenDelimiter ft (uDI - 1) 0 = m) (hm1 : m ≠ -1) :
    calculateIndent ft =
      calculateIndent { text := listSlice ft.text 0 m ++ ['$'], flags := ft.flags } := by
  have huDI : uDI ≠ -1 := by
    have := (isCloseDelimiter_bounds hcl).1
    omega
  have hop : isOpenDelimiter (charAt ft.text uDI) = false := by
    by_contra hc
    exact open_close_disjoint (by simpa using hc) hcl
  obtain ⟨hs0, hs1, hs2⟩ := dedent_shrinks hcl hm hm1
  rw [calculateIndent, calculateIndentF]
  simp only [hlast, if_false, hu, huDI, ne_eq, not_false_eq_true, if_true, hop, hcl, hm, hm1,
    Option.getD_some, if_false]
  exact calculateIndentF_eq_calculateIndent (by rw [trunc_length hs0 (by omega)]; omega)

/-- Unfolding `formIndentation` in the body-form branch. -/
theorem formIndentation_body {ft : FlaggedText} {openParenIdx fEI : Int}
    (hc : charAt ft.text openParenIdx = some '(')
    (hfe : skipSpaceAndComments ft (openParenIdx + 1) = fEI) (hfe1 : fEI ≠ -1)
    (hbody : BODY_FORMS.contains (String.mk (readElement ft fEI)) = true) :
    formIndentation ft openParenIdx = getColumn ft.text openParenIdx + 2 := by
  have hmem : (String.mk (readElement ft fEI)) ∈ BODY_FORMS := by simpa using hbody
  rw [formIndentation]
  simp [hc, hfe, hfe1, hmem]

/-- Unfolding `formIndentation` in the aligned-first-argument branch. -/
theorem formIndentation_arg {ft : FlaggedText} {openParenIdx fEI fA : Int}
    (hc : charAt ft.text openParenIdx = some '(')
    (hfe : skipSpaceAndComments ft (openParenIdx + 1) = fEI) (hfe1 : fEI ≠ -1)
    (hbody : BODY_FORMS.contains (String.mk (readElement ft fEI)) = false)
    (hfa : skipSpaceAndComments ft (fEI + ((readElement ft fEI).length : Int)) = fA)
    (hfa1 : fA ≠ -1)
    (hline : getLineStart ft.text fA = getLineStart ft.text openParenIdx) :
    formIndentation ft openParenIdx = getColumn ft.text fA := by
  have hmem : (String.mk (readElement ft fEI)) ∉ BODY_FORMS := by simpa using hbody
  rw [formIndentation]
  simp [hc, hfe, hfe1, hmem, hfa, hfa1, hline]

/-- Unfolding `formIndentation` in the three `openCol + 1` fallback branches. -/
theorem formIndentation_fallback {ft : FlaggedText} {openParenIdx : Int}
    (h : charAt ft.text openParenIdx ≠ some '(' ∨
      skipSpaceAndComments ft (openParenIdx + 1) = -1 ∨
      (BODY_FORMS.contains (String.mk (readElement ft
          (skipSpaceAndComments ft (openParenIdx + 1)))) = false ∧
        (skipSpaceAndComments ft (skipSpaceAndComments ft (openParenIdx + 1) +
            ((readElement ft (skipSpaceAndComments ft (openParenIdx + 1))).length : Int)) = -1 ∨
          getLineStart ft.text (skipSpaceAndComments ft
            (skipSpaceAndComments ft (openParenIdx + 1) +
              ((readElement ft (skipSpaceAndComments ft (openParenIdx + 1))).length : Int))) ≠
            getLineStart ft.text openParenIdx))) :
    formIndentation ft openParenIdx = getColumn ft.text openParenIdx + 1 := by
  rw [formIndentation]
  rcases h with h | h | ⟨h1, h2⟩
  · simp [h]
  · by_cases hc : charAt ft.text openParenIdx = some '('
    · simp [hc, h]
    · simp [hc]
  · by_cases hc : charAt ft.text openParenIdx = some '('
    · by_cases hfe : skipSpaceAndComments ft (openParenIdx + 1) = -1
      · simp [hc, hfe]
      · have h1' : (String.mk (readElement ft (skipSpaceAndComments ft (openParenIdx + 1)))) ∉
            BODY_FORMS := by simpa using h1
        rcases h2 with h2 | h2
        · simp [hc, hfe, h1', h2]
        · by_cases hfa : skipSpaceAndComments ft (skipSpaceAndComments ft (openParenIdx + 1) +
              ((readElement ft (skipSpaceAndComments ft (openParenIdx + 1))).length : Int)) = -1
          · simp [hc, hfe, h1', hfa]
          · simp [hc, hfe, h1', hfa, h2]
    · simp [hc]

/-! ### Claim theorems -/

/-- C4: for a prefix whose governing unmatched opener is `'('` with a first
element (read by `readElement` after `skipSpaceAndComments`) that is not a
body form and a first argument found on the same physical line as the opener,
the computed indentation is the first argument's column. -/
theorem claim_C4 (pfx : List Char) (ft : FlaggedText) (uDI fEI fA : Int)
    (hft : ft = flagCommentsAndStrings pfx) (hne : pfx ≠ [])
    (hstr : inString ft ((pfx.length : Int) - 1) = false)
    (hlast : findLastCodeCharIdx ft ≠ -1)
    (hu : findUnmatchedDelimiterInLine ft (findLastCodeCharIdx ft)
      (getLineStart ft.text (findLastCodeCharIdx ft)) = uDI)
    (hc : charAt ft.text uDI = some '(')
    (hfe : skipSpaceAndComments ft (uDI + 1) = fEI) (hfe1 : fEI ≠ -1)
    (hbody : BODY_FORMS.contains (String.mk (readElement ft fEI)) = false)
    (hfa : skipSpaceAndComments ft (fEI + ((readElement ft fEI).length : Int)) = fA)
    (hfa1 : fA ≠ -1)
    (hline : getLineStart ft.text fA = getLineStart ft.text uDI) :
    calculateIndentation pfx = getColumn ft.text fA := by
  subst hft
  rw [calculateIndentation_eq_calculateIndent hne hstr,
    calculateIndent_opener hlast hu (by rw [hc]; rfl),
    formIndentation_arg hc hfe hfe1 hbody hfa hfa1 hline]

/-- C4 witness: `"(foo bar "` yields column 5 (under `bar`). -/
theorem claim_C4_witness : calculateIndentation ("(foo bar ".toList) = 5 := by
  have h := claim_C4 ("(foo bar ".toList) (flagCommentsAndStrings ("(foo bar ".toList)) 0 1 5
    rfl (by decide) (by decide) (by decide) (by decide) (by decide) (by decide) (by decide)
    (by decide) (by decide) (by decide) (by decide)
  exact h.trans (by decide)

/-- C5: for a prefix whose governing unmatched opener is `'('` whose first
element exactly matches an entry of the body-form set, the computed
indentation is the opener's column plus 2, regardless of further content. -/
theorem claim_C5 (pfx : List Char) (ft : FlaggedText) (uDI fEI : Int)
    (hft : ft = flagCommentsAndStrings pfx) (hne : pfx ≠ [])
    (hstr : inString ft ((pfx.length : Int) - 1) = false)
    (hlast : findLastCodeCharIdx ft ≠ -1)
    (hu : findUnmatchedDelimiterInLine ft (findLastCodeCharIdx ft)
      (getLineStart ft.text (findLastCodeCharIdx ft)) = uDI)
    (hc : charAt ft.text uDI = some '(')
    (hfe : skipSpaceAndComments ft (uDI + 1) = fEI) (hfe1 : fEI ≠ -1)
    (hbody : BODY_FORMS.contains (String.mk (readElement ft fEI)) = true) :
    calculateIndentation pfx = getColumn ft.text uDI + 2 := by
  subst hft
  rw [calculateIndentation_eq_calculateIndent hne hstr,
    calculateIndent_opener hlast hu (by rw [hc]; rfl),
    formIndentation_body hc hfe hfe1 hbody]

/-- C5 witness: `"(defn foo [x]"` yields 2. -/
theorem claim_C5_witness : calculateIndentation ("(defn foo [x]".toList) = 2 := by
  have h := claim_C5 ("(defn foo [x]".toList) (flagCommentsAndStrings ("(defn foo [x]".toList))
    0 1 rfl (by decide) (by decide) (by decide) (by decide) (by decide) (by decide) (by decide)
    (by decide)
  exact h.trans (by decide)

/-- C6: for a prefix whose governing unmatched opener is `'['` or `'{'` (any
contents), or `'('` with no following element, or `'('` whose first element is
not a body form and whose first argument lies on a different physical line
than the opener, the computed indentation is the opener's column plus 1. -/
theorem claim_C6 (pfx : List Char) (ft : FlaggedText) (uDI : Int)
    (hft : ft = flagCommentsAndStrings pfx) (hne : pfx ≠ [])
    (hstr : inString ft ((pfx.length : Int) - 1) = false)
    (hlast : findLastCodeCharIdx ft ≠ -1)
    (hu : findUnmatchedDelimiterInLine ft (findLastCodeCharIdx ft)
      (getLineStart ft.text (findLastCodeCharIdx ft)) = uDI)
    (hcase :
      charAt ft.text uDI = some '[' ∨ charAt ft.text uDI = some '\x7b' ∨
      (charAt ft.text uDI = some '(' ∧ skipSpaceAndComments ft (uDI + 1) = -1) ∨
      (charAt ft.text uDI = some '(' ∧ skipSpaceAndComments ft (uDI + 1) ≠ -1 ∧
        BODY_FORMS.contains (String.mk (readElement ft
          (skipSpaceAndComments ft (uDI + 1)))) = false ∧
        skipSpaceAndComments ft (skipSpaceAndComments ft (uDI + 1) +
          ((readElement ft (skipSpaceAndComments ft (uDI + 1))).length : Int)) ≠ -1 ∧
        getLineStart ft.text (skipSpaceAndComments ft (skipSpaceAndComments ft (uDI + 1) +
          ((readElement ft (skipSpaceAndComments ft (uDI + 1))).length : Int))) ≠
          getLineStart ft.text uDI)) :
    calculateIndentation pfx = getColumn ft.text uDI + 1 := by
  subst hft
  have hop : isOpenDelimiter (charAt (flagCommentsAndStrings pfx).text uDI) = true := by
    rcases hcase with h | h | ⟨h, _⟩ | ⟨h, _⟩ <;> rw [h] <;> rfl
  rw [calculateIndentation_eq_calculateIndent hne hstr, calculateIndent_opener hlast hu hop]
  rcases hcase with h | h | ⟨h, h2⟩ | ⟨h, _, h3, _, h5⟩
  · exact formIndentation_fallback (Or.inl (by rw [h]; intro hc; exact absurd hc (by decide)))
  · exact formIndentation_fallback (Or.inl (by rw [h]; intro hc; exact absurd hc (by decide)))
  · exact formIndentation_fallback (Or.inr (Or.inl h2))
  · exact formIndentation_fallback (Or.inr (Or.inr ⟨h3, Or.inr h5⟩))

/-- C6 witness: `"[foo "` yields 1. -/
theorem claim_C6_witness : calculateIndentation ("[foo ".toList) = 1 := by
  have h := claim_C6 ("[foo ".toList) (flagCommentsAndStrings ("[foo ".toList)) 0
    rfl (by decide) (by decide) (by decide) (by decide) (Or.inl (by decide))
  exact h.trans (by decide)

/-- C1 counterexample: for the prefix `"(\n)"` the last code line's governing
unmatched delimiter is the closer at index 2 whose matching opener is at
index 0, yet the algorithm's result (0) differs from re-running the top-level
algorithm on the prefix truncated to `0 + 1` characters (which yields 1):
the code replaces the opener by the sentinel `'$'` instead of keeping it. -/
theorem claim_C1_counterexample :
    findUnmatchedDelimiterInLine (flagCommentsAndStrings ("(\n)".toList))
      (findLastCodeCharIdx (flagCommentsAndStrings ("(\n)".toList)))
      (getLineStart ("(\n)".toList)
        (findLastCodeCharIdx (flagCommentsAndStrings ("(\n)".toList)))) = 2 ∧
    isCloseDelimiter (charAt ("(\n)".toList) 2) = true ∧
    findOpenDelimiter (flagCommentsAndStrings ("(\n)".toList)) (2 - 1) 0 = 0 ∧
    calculateIndentation ("(\n)".toList) = 0 ∧
    calculateIndentation (List.take (0 + 1) ("(\n)".toList)) = 1 := by
  decide

/-- C1 (amended): in the dedent situation the result equals re-running the
algorithm on the prefix truncated to `matchingOpenIdx` characters with a
sentinel symbol character `'$'` appended in place of the opener, under the
original flag array. -/
theorem claim_C1 (pfx : List Char) (ft : FlaggedText) (uDI m : Int)
    (hft : ft = flagCommentsAndStrings pfx) (hne : pfx ≠ [])
    (hstr : inString ft ((pfx.length : Int) - 1) = false)
    (hlast : findLastCodeCharIdx ft ≠ -1)
    (hu : findUnmatchedDelimiterInLine ft (findLastCodeCharIdx ft)
      (getLineStart ft.text (findLastCodeCharIdx ft)) = uDI)
    (hcl : isCloseDelimiter (charAt ft.text uDI) = true)
    (hm : findOpenDelimiter ft (uDI - 1) 0 = m) (hm1 : m ≠ -1) :
    calculateIndentation pfx =
      calculateIndent { text := listSlice ft.text 0 m ++ ['$'], flags := ft.flags } := by
  subst hft
  rw [calculateIndentation_eq_calculateIndent hne hstr]
  exact calculateIndent_closer hlast hu hcl hm hm1

/-- C1 witness: the dedent of `"(foo\n  (bar\n    baz)"` (closer at 19,
matching opener at 7). -/
theorem claim_C1_witness :
    calculateIndentation ("(foo\n  (bar\n    baz)".toList) =
      calculateIndent { text := listSlice ("(foo\n  (bar\n    baz)".toList) 0 7 ++ ['$'],
                        flags := (flagCommentsAndStrings ("(foo\n  (bar\n    baz)".toList)).flags }
    := by
  exact claim_C1 ("(foo\n  (bar\n    baz)".toList)
    (flagCommentsAndStrings ("(foo\n  (bar\n    baz)".toList)) 19 7 rfl (by decide) (by decide)
    (by decide) (by decide) (by decide) (by decide) (by decide)

/-- C9: whenever a dedent step fires (governing unmatched delimiter of the
last code line is a closer with a matching opener at `m`), the recursive call
operates on a text of length `m + 1`, strictly shorter than the current text;
consequently fuel `length + 1` makes the embedded recursion stable. -/
theorem claim_C9 (ft : FlaggedText) (uDI m : Int)
    (hlast : findLastCodeCharIdx ft ≠ -1)
    (hu : findUnmatchedDelimiterInLine ft (findLastCodeCharIdx ft)
      (getLineStart ft.text (findLastCodeCharIdx ft)) = uDI)
    (hcl : isCloseDelimiter (charAt ft.text uDI) = true)
    (hm : findOpenDelimiter ft (uDI - 1) 0 = m) (hm1 : m ≠ -1) :
    (listSlice ft.text 0 m ++ ['$']).length = m.toNat + 1 ∧
    m.toNat + 1 < ft.text.length ∧
    (∀ f : Nat, ft.text.length + 1 ≤ f → calculateIndentF f ft = calculateIndent ft) := by
  obtain ⟨hs0, hs1, hs2⟩ := dedent_shrinks hcl hm hm1
  refine ⟨trunc_length hs0 (by omega), by omega, ?_⟩
  intro f hf
  exact calculateIndentF_eq_calculateIndent hf

/-- C9 witness at `"(x\n)"`: the dedent text has length 1 < 4, and any fuel
beyond `length + 1` gives the same result. -/
theorem claim_C9_witness :
    (listSlice ("(x\n)".toList) 0 0 ++ ['$']).length = (0 : Int).toNat + 1 ∧
    (0 : Int).toNat + 1 < ("(x\n)".toList).length ∧
    calculateIndentF 9 (flagCommentsAndStrings ("(x\n)".toList)) =
      calculateIndent (flagCommentsAndStrings ("(x\n)".toList)) := by
  have h := claim_C9 (flagCommentsAndStrings ("(x\n)".toList)) 3 0 (by decide) (by decide)
    (by decide) (by decide) (by decide)
  exact ⟨h.1, h.2.1, h.2.2 9 (by decide)⟩

/-- C3 counterexample: the prefix `" \"\\"` ends inside an open, unterminated
string literal (the classifier's string state is still open), yet the
algorithm returns 1, not 0: the code only consults the in-string flag of the
final character, which a backslash inside a string does not carry. -/
theorem claim_C3_counterexample :
    (stateAfter initState (" \"\\".toList)).inString = true ∧
    calculateIndentation (" \"\\".toList) = 1 := by
  decide

/-- C3 (amended): if the character immediately preceding the cursor carries
the in-string flag, the result is 0. -/
theorem claim_C3 (pfx : List Char) (hne : pfx ≠ [])
    (hstr : inString (flagCommentsAndStrings pfx) ((pfx.length : Int) - 1) = true) :
    calculateIndentation pfx = 0 := by
  unfold calculateIndentation
  simp [hne, hstr]

/-- C3 witness: `"(println \"Hello"` yields 0. -/
theorem claim_C3_witness : calculateIndentation ("(println \"Hello".toList) = 0 :=
  claim_C3 ("(println \"Hello".toList) (by decide) (by decide)

/-! ### Structural inertness of flagged characters (C7) -/

theorem charAt_ge {t : List Char} {i : Int} (h : (t.length : Int) ≤ i) : charAt t i = none := by
  unfold charAt
  rw [if_neg (by omega)]
  exact List.getElem?_eq_none (by omega)

/-- A stored candidate of the unmatched-delimiter search: an unskipped real
delimiter position. -/
def goodDelim (ft : FlaggedText) (j : Int) : Prop :=
  isIgnored ft j = false ∧
    (isOpenDelimiter (charAt ft.text j) = true ∨ isCloseDelimiter (charAt ft.text j) = true)

theorem udScanGo_spec (ft : FlaggedText) : ∀ (L : List Int) (s : Int × Int × Int),
    (s.2.1 = -1 ∨ goodDelim ft s.2.1) →
    ((scanGo ft isIgnored udMatch L s).1 ≠ -1 →
      (scanGo ft isIgnored udMatch L s).2.1 = (scanGo ft isIgnored udMatch L s).1 ∧
      goodDelim ft (scanGo ft isIgnored udMatch L s).1) ∧
    ((scanGo ft isIgnored udMatch L s).1 = -1 →
      (scanGo ft isIgnored udMatch L s).2.2.1 = -1 ∨
        goodDelim ft (scanGo ft isIgnored udMatch L s).2.2.1) := by
  intro L
  induction L with
  | nil =>
    intro s hs
    constructor
    · intro h
      exact absurd rfl h
    · intro _
      exact hs
  | cons i is ih =>
    intro s hs
    rw [scanGo]
    by_cases hsk : isIgnored ft i
    · rw [if_pos hsk]
      exact ih s hs
    · rw [if_neg hsk]
      by_cases hm : (udMatch (charAt ft.text i) i s).1 = true
      · rw [if_pos hm]
        have hopen : isOpenDelimiter (charAt ft.text i) = true ∧
            (udMatch (charAt ft.text i) i s).2 = (i, s.2.1, s.2.2) := by
          unfold udMatch at hm ⊢
          by_cases ho : isOpenDelimiter (charAt ft.text i) = true
          · by_cases hd : s.2.2 = 0
            · simp [ho, hd]
            · simp [ho, hd] at hm
          · by_cases hc : isCloseDelimiter (charAt ft.text i) = true
            · simp [ho, hc] at hm
            · simp [ho, hc] at hm
        constructor
        · intro _
          rw [hopen.2]
          exact ⟨rfl, by simpa using hsk, Or.inl hopen.1⟩
        · intro hc
          exfalso
          have := (isOpenDelimiter_bounds hopen.1).1
          simp only at hc
          omega
      · rw [if_neg hm]
        apply ih
        unfold udMatch at hm ⊢
        by_cases ho : isOpenDelimiter (charAt ft.text i) = true
        · by_cases hd : s.2.2 = 0
          · exfalso
            apply hm
            simp [ho, hd]
          · by_cases hz : s.2.2 - 1 = 0
            · simp [ho, hd, hz]
            · simpa [ho, hd, hz] using hs
        · by_cases hc : isCloseDelimiter (charAt ft.text i) = true
          · by_cases h1 : s.2.2 + 1 = 1
            · simp only [ho, if_false, hc, if_true, h1]
              right
              exact ⟨by simpa using hsk, Or.inr hc⟩
            · simpa [ho, hc, h1] using hs
          · simpa [ho, hc] using hs

/-- C7: characters tagged in-string, in-comment or escaped are structurally
inert: replacing the characters at all ignored positions (even by unbalanced
delimiters) changes neither the unmatched-delimiter search nor the
matching-opener search, and neither search ever returns an ignored position. -/
theorem claim_C7 (ft1 ft2 : FlaggedText) (index limit : Int)
    (hflag : ∀ i : Int, flagAt ft1.flags i = flagAt ft2.flags i)
    (hchar : ∀ i : Int, isIgnored ft1 i = false → charAt ft1.text i = charAt ft2.text i) :
    findUnmatchedDelimiterInLine ft1 index limit = findUnmatchedDelimiterInLine ft2 index limit ∧
    findOpenDelimiter ft1 index limit = findOpenDelimiter ft2 index limit ∧
    (findUnmatchedDelimiterInLine ft1 index limit ≠ -1 →
      isIgnored ft1 (findUnmatchedDelimiterInLine ft1 index limit) = false) ∧
    (findOpenDelimiter ft1 index limit ≠ -1 →
      isIgnored ft1 (findOpenDelimiter ft1 index limit) = false) := by
  have hskip : ∀ i : Int, isIgnored ft1 i = isIgnored ft2 i := by
    intro i
    simp [isIgnored, hasFlag, hflag i]
  have hscan : scan ft1 index limit isIgnored udMatch (-1, -1, 0) =
      scan ft2 index limit isIgnored udMatch (-1, -1, 0) := by
    unfold scan
    exact scanGo_congr ft1 ft2 isIgnored isIgnored udMatch udMatch _ (fun i _ => hskip i)
      (fun i _ hsk s => by rw [hchar i hsk]) _
  have hscan2 : scan ft1 index limit isIgnored fodMatch 0 =
      scan ft2 index limit isIgnored fodMatch 0 := by
    unfold scan
    exact scanGo_congr ft1 ft2 isIgnored isIgnored fodMatch fodMatch _ (fun i _ => hskip i)
      (fun i _ hsk s => by rw [hchar i hsk]) _
  refine ⟨?_, ?_, ?_, ?_⟩
  · unfold findUnmatchedDelimiterInLine
    rw [hscan]
  · unfold findOpenDelimiter
    rw [hscan2]
  · intro hne
    have hspec := udScanGo_spec ft1 (scanIdxs index limit) (-1, -1, 0) (Or.inl rfl)
    unfold findUnmatchedDelimiterInLine scan at hne ⊢
    by_cases hr : (scanGo ft1 isIgnored udMatch (scanIdxs index limit) (-1, -1, 0)).1 = -1
    · simp only [hr, ne_eq, not_true_eq_false, if_false] at hne ⊢
      rcases hspec.2 hr with h | h
      · exact absurd h hne
      · exact h.1
    · simp only [hr, ne_eq, not_false_eq_true, if_true] at hne ⊢
      obtain ⟨heq, hgood⟩ := hspec.1 hr
      rw [heq]
      exact hgood.1
  · intro hne
    rcases findOpenDelimiter_spec ft1 index limit with h | ⟨_, h2, _⟩
    · exact absurd h hne
    · exact h2

/-- C7 witness: inside `"(\")\""` the close paren sits in a string; replacing
it by `x` leaves the unmatched-delimiter search unchanged, and the found
delimiter (the opening paren at index 0) is unflagged. -/
theorem claim_C7_witness :
    findUnmatchedDelimiterInLine (flagCommentsAndStrings ("(\")\"".toList)) 3 0 =
      findUnmatchedDelimiterInLine (flagCommentsAndStrings ("(\"x\"".toList)) 3 0 ∧
    findUnmatchedDelimiterInLine (flagCommentsAndStrings ("(\")\"".toList)) 3 0 = 0 := by
  have h := claim_C7 (flagCommentsAndStrings ("(\")\"".toList))
    (flagCommentsAndStrings ("(\"x\"".toList)) 3 0 ?_ ?_
  · exact ⟨h.1, by decide⟩
  · intro i
    have hfl : (flagCommentsAndStrings ("(\")\"".toList)).flags =
        (flagCommentsAndStrings ("(\"x\"".toList)).flags := by decide
    rw [hfl]
  · intro i h
    by_cases h0 : i < 0
    · rw [charAt_neg h0, charAt_neg h0]
    · by_cases h4 : (4 : Int) ≤ i
      · rw [charAt_ge (by exact le_trans (by decide) h4), charAt_ge (by exact le_trans (by decide) h4)]
      · have h1 : 0 ≤ i := by omega
        have h2 : i < 4 := by omega
        interval_cases i <;> revert h <;> decide

/-! ### Classifier state lemmas (C10) -/

theorem stateAfter_append (s : ClassifierState) (l1 l2 : List Char) :
    stateAfter s (l1 ++ l2) = stateAfter (stateAfter s l1) l2 := by
  induction l1 generalizing s with
  | nil => rfl
  | cons c cs ih => rw [List.cons_append, stateAfter, stateAfter, ih]

theorem charAt_natCast (cs : List Char) (i : Nat) : charAt cs (i : Int) = cs[i]? := by
  unfold charAt
  rw [if_neg (by omega)]
  norm_num

theorem charAt_cons (c0 : Char) (cs : List Char) (n : Nat) :
    charAt (c0 :: cs) ((n : Int) + 1) = charAt cs (n : Int) := by
  unfold charAt
  rw [if_neg (by omega), if_neg (by omega)]
  have h1 : ((n : Int) + 1).toNat = n + 1 := by omega
  have h2 : ((n : Int)).toNat = n := by omega
  rw [h1, h2]
  simp

theorem flagAt_cons (f : Nat) (fl : List Nat) (n : Nat) :
    flagAt (f :: fl) ((n : Int) + 1) = flagAt fl (n : Int) := by
  unfold flagAt
  rw [if_neg (by omega), if_neg (by omega)]
  have h1 : ((n : Int) + 1).toNat = n + 1 := by omega
  have h2 : ((n : Int)).toNat = n := by omega
  rw [h1, h2]
  simp

theorem stateAfter_take_succ {t : List Char} {i : Nat} {c : Char}
    (h : charAt t (i : Int) = some c) (s : ClassifierState) :
    stateAfter s (t.take (i + 1)) = (classifyChar (stateAfter s (t.take i)) c).2 := by
  have hg : t[i]? = some c := by rw [← charAt_natCast]; exact h
  rw [List.take_succ, hg, stateAfter_append]
  rfl

theorem flagAt_classifyFrom : ∀ (cs : List Char) (s : ClassifierState) (i : Nat) (c : Char),
    charAt cs (i : Int) = some c →
    flagAt (classifyFrom s cs) (i : Int) = (classifyChar (stateAfter s (cs.take i)) c).1 := by
  intro cs
  induction cs with
  | nil =>
    intro s i c h
    rw [charAt_natCast] at h
    simp at h
  | cons c0 cs ih =>
    intro s i c h
    cases i with
    | zero =>
      rw [charAt_natCast] at h
      simp only [List.getElem?_cons_zero, Option.some.injEq] at h
      subst h
      simp [classifyFrom, flagAt, stateAfter]
    | succ n =>
      have hcast : ((n + 1 : Nat) : Int) = (n : Int) + 1 := by push_cast; ring
      have h' : charAt cs (n : Int) = some c := by
        rw [hcast, charAt_cons] at h
        exact h
      rw [hcast, classifyFrom, flagAt_cons, ih (classifyChar s c0).2 n c h',
        List.take_succ_cons, stateAfter]

theorem classifyChar_newline (s : ClassifierState) :
    (classifyChar s '\n').2.inString = s.inString ∧ (classifyChar s '\n').2.inComment = false := by
  obtain ⟨a, b, e⟩ := s
  cases a <;> cases b <;> cases e <;> decide

theorem stateAfter_ok (cs : List Char) : ∀ s : ClassifierState,
    ¬(s.inString = true ∧ s.inComment = true) →
    ¬((stateAfter s cs).inString = true ∧ (stateAfter s cs).inComment = true) := by
  induction cs with
  | nil => intro s hs; exact hs
  | cons c cs ih =>
    intro s hs
    rw [stateAfter]
    apply ih
    obtain ⟨a, b, e⟩ := s
    revert hs
    cases a <;> cases b <;> cases e <;>
      (intro hs; unfold classifyChar) <;>
      (first
        | (exact fun hc => hs (by simpa using hc))
        | (by_cases h1 : c = '\\'
           · simp [h1]
           · by_cases h2 : c = '"'
             · simp [h1, h2]
             · by_cases h3 : c = ';'
               · simp [h1, h2, h3]
               · simp [h1, h2, h3]))

theorem classifyChar_string {s : ClassifierState} (h1 : s.inString = true)
    (h2 : s.escaped = false) (h3 : s.inComment = false) {c : Char}
    (hc1 : c ≠ '"') (hc2 : c ≠ '\\') : (classifyChar s c).1 = FLAG_STRING := by
  unfold classifyChar
  simp [h1, h2, h3, hc1, hc2]

theorem classifyChar_close {s : ClassifierState} {c : Char} (h1 : s.inString = true)
    (h2 : (classifyChar s c).2.inString = false) : c = '"' ∧ s.escaped = false := by
  obtain ⟨a, b, e⟩ := s
  simp only at h1
  subst h1
  unfold classifyChar at h2
  by_cases hb : b = true
  · simp [hb] at h2
  · by_cases he : e = true
    · simp [hb, he] at h2
    · by_cases hc : c = '\\'
      · simp [hb, he, hc] at h2
      · by_cases hq : c = '"'
        · exact ⟨hq, by simpa using he⟩
        · simp [hb, he, hc, hq] at h2

/-- C10 (amended): in the classifier, string state persists across newlines
(a newline never changes `inString` and always clears `inComment`); a
character read while inside a string with no pending escape is tagged
in-string unless it is a double quote or a backslash (the backslash is left
untagged and the character it escapes is tagged escaped instead); and the
string state can only be closed by an unescaped double quote. -/
theorem claim_C10 (t : List Char) (i : Nat) :
    (charAt t (i : Int) = some '\n' →
      (stateAfter initState (t.take (i + 1))).inString =
        (stateAfter initState (t.take i)).inString ∧
      (stateAfter initState (t.take (i + 1))).inComment = false) ∧
    (∀ c : Char, charAt t (i : Int) = some c →
      (stateAfter initState (t.take i)).inString = true →
      (stateAfter initState (t.take i)).escaped = false →
      c ≠ '"' → c ≠ '\\' →
      flagAt (flagCommentsAndStrings t).flags (i : Int) = FLAG_STRING) ∧
    ((stateAfter initState (t.take i)).inString = true →
      (stateAfter initState (t.take (i + 1))).inString = false →
      charAt t (i : Int) = some '"' ∧ (stateAfter initState (t.take i)).escaped = false) := by
  refine ⟨?_, ?_, ?_⟩
  · intro h
    rw [stateAfter_take_succ h initState]
    exact ⟨(classifyChar_newline _).1, (classifyChar_newline _).2⟩
  · intro c h hstr hesc hc1 hc2
    have hcm : (stateAfter initState (t.take i)).inComment = false := by
      have hok := stateAfter_ok (t.take i) initState (by decide)
      by_cases hcm : (stateAfter initState (t.take i)).inComment = true
      · exact absurd ⟨hstr, hcm⟩ hok
      · simpa using hcm
    unfold flagCommentsAndStrings
    rw [flagAt_classifyFrom t initState i c h]
    exact classifyChar_string hstr hesc hcm hc1 hc2
  · intro hstr hclosed
    have hlt : i < t.length := by
      by_contra hge
      rw [List.take_of_length_le (by omega : t.length ≤ i + 1)] at hclosed
      rw [List.take_of_length_le (by omega : t.length ≤ i)] at hstr
      rw [hstr] at hclosed
      exact absurd hclosed (by decide)
    obtain ⟨c, hc⟩ : ∃ c, charAt t (i : Int) = some c := by
      rw [charAt_natCast]
      exact ⟨t[i], List.getElem?_eq_getElem hlt⟩
    rw [stateAfter_take_succ hc initState] at hclosed
    obtain ⟨hq, he⟩ := classifyChar_close hstr hclosed
    exact ⟨hq ▸ hc, he⟩

/-- C10 counterexample: in `"\"\\a\""` the characters at indices 1 (the
backslash) and 2 (the escaped `a`) lie strictly between the unescaped opening
quote (index 0) and the next unescaped closing quote (index 3), yet neither
is tagged in-string. -/
theorem claim_C10_counterexample :
    (stateAfter initState (List.take 1 ("\"\\a\"".toList))).inString = true ∧
    (stateAfter initState (List.take 4 ("\"\\a\"".toList))).inString = false ∧
    charAt ("\"\\a\"".toList) 0 = some '"' ∧
    charAt ("\"\\a\"".toList) 3 = some '"' ∧
    flagAt (flagCommentsAndStrings ("\"\\a\"".toList)).flags 1 ≠ FLAG_STRING ∧
    flagAt (flagCommentsAndStrings ("\"\\a\"".toList)).flags 2 ≠ FLAG_STRING := by
  decide

/-- C10 witness at `"\"a\nb\""`: the newline at index 2 keeps the string
open and is itself tagged in-string, and the string is closed at index 4 by
an unescaped quote. -/
theorem claim_C10_witness :
    (stateAfter initState (List.take 3 ("\"a\nb\"".toList))).inString =
      (stateAfter initState (List.take 2 ("\"a\nb\"".toList))).inString ∧
    (stateAfter initState (List.take 3 ("\"a\nb\"".toList))).inComment = false ∧
    flagAt (flagCommentsAndStrings ("\"a\nb\"".toList)).flags 2 = FLAG_STRING ∧
    (charAt ("\"a\nb\"".toList) 4 = some '"' ∧
      (stateAfter initState (List.take 4 ("\"a\nb\"".toList))).escaped = false) := by
  have hA := (claim_C10 ("\"a\nb\"".toList) 2).1 (by decide)
  have hB := (claim_C10 ("\"a\nb\"".toList) 2).2.1 '\n' (by decide) (by decide) (by decide)
    (by decide) (by decide)
  have hC := (claim_C10 ("\"a\nb\"".toList) 4).2.2 (by decide) (by decide)
  exact ⟨hA.1, hA.2, hB, hC⟩

/-! ### Non-negativity of the result (C8) -/

theorem getColumn_nonneg {t : List Char} {i : Int} (h0 : 0 ≤ i)
    (h : charAt t i ≠ some '\n') : 0 ≤ getColumn t i := by
  unfold getColumn
  have := getLineStart_le h0 h
  omega

theorem isOpenDelimiter_not_newline {t : List Char} {i : Int}
    (h : isOpenDelimiter (charAt t i) = true) : charAt t i ≠ some '\n' := by
  intro hc
  rw [hc] at h
  exact absurd h (by decide)

theorem scanP_spec (ft : FlaggedText) (index limit : Int) (skip : FlaggedText → Int → Bool)
    (matchP : Option Char → Int → Bool) :
    scanP ft index limit skip matchP = -1 ∨
    (scanP ft index limit skip matchP ∈ scanIdxs index limit ∧
      skip ft (scanP ft index limit skip matchP) = false ∧
      matchP (charAt ft.text (scanP ft index limit skip matchP))
        (scanP ft index limit skip matchP) = true) := by
  unfold scanP scan
  exact scanGo_result ft skip (fun c i (_ : Unit) => (matchP c i, ()))
    (fun i => matchP (charAt ft.text i) i = true) (fun i s hm => by simpa using hm) _ _

theorem skipSpaceAndComments_spec (ft : FlaggedText) (a : Int) (h0 : 0 ≤ a) :
    skipSpaceAndComments ft a = -1 ∨
    (0 ≤ skipSpaceAndComments ft a ∧ skipSpaceAndComments ft a < (ft.text.length : Int) ∧
      isSpaceOrComment ft (skipSpaceAndComments ft a) = false) := by
  unfold skipSpaceAndComments
  split
  · exact Or.inl rfl
  · rename_i hguard
    rcases scanP_spec ft a ((ft.text.length : Int) - 1) isSpaceOrComment (fun _ _ => true) with
      h | ⟨h1, h2, _⟩
    · exact Or.inl h
    · right
      have hb := scanIdxs_mem h1
      refine ⟨by omega, by omega, h2⟩

theorem isWhitespace_of_newline {t : List Char} {i : Int} (h : charAt t i = some '\n') :
    isWhitespace (charAt t i) = true := by
  rw [h]
  decide

theorem formIndentation_nonneg {ft : FlaggedText} {idx : Int}
    (hop : isOpenDelimiter (charAt ft.text idx) = true) : 0 ≤ formIndentation ft idx := by
  have hidx := isOpenDelimiter_bounds hop
  have hcol : 0 ≤ getColumn ft.text idx :=
    getColumn_nonneg hidx.1 (isOpenDelimiter_not_newline hop)
  rw [formIndentation]
  by_cases h1 : charAt ft.text idx = some '('
  · simp only [h1, if_true]
    by_cases h2 : skipSpaceAndComments ft (idx + 1) = -1
    · simp only [h2, if_true]
      omega
    · simp only [h2, if_false]
      by_cases h3 : BODY_FORMS.contains
          (String.mk (readElement ft (skipSpaceAndComments ft (idx + 1)))) = true
      · simp only [h3, if_true]
        omega
      · rw [Bool.not_eq_true] at h3
        simp only [h3, if_false]
        by_cases h4 : skipSpaceAndComments ft (skipSpaceAndComments ft (idx + 1) +
            ((readElement ft (skipSpaceAndComments ft (idx + 1))).length : Int)) = -1
        · simp only [h4, ne_eq, not_true_eq_false, if_false]
          omega
        · simp only [h4, ne_eq, not_false_eq_true, if_true]
          have hfe : 0 ≤ skipSpaceAndComments ft (idx + 1) := by
            rcases skipSpaceAndComments_spec ft (idx + 1) (by omega) with h | ⟨ha, _, _⟩
            · exact absurd h h2
            · exact ha
          have harg : 0 ≤ skipSpaceAndComments ft (idx + 1) +
              ((readElement ft (skipSpaceAndComments ft (idx + 1))).length : Int) := by
            omega
          rcases skipSpaceAndComments_spec ft (skipSpaceAndComments ft (idx + 1) +
              ((readElement ft (skipSpaceAndComments ft (idx + 1))).length : Int)) harg with
            h | ⟨ha, hb, hc⟩
          · exact absurd h h4
          · have hnw : charAt ft.text (skipSpaceAndComments ft (skipSpaceAndComments ft (idx + 1) +
                ((readElement ft (skipSpaceAndComments ft (idx + 1))).length : Int))) ≠
                some '\n' := by
              intro hcn
              have := isWhitespace_of_newline hcn
              unfold isSpaceOrComment at hc
              rw [this] at hc
              simp at hc
            have := getColumn_nonneg ha hnw
            split
            · omega
            · omega
  · simp only [h1, if_false]
    omega

theorem calculateIndentF_nonneg : ∀ (f : Nat) (ft : FlaggedText), 0 ≤ calculateIndentF f ft := by
  intro f
  induction f with
  | zero => intro ft; rw [calculateIndentF]
  | succ f ih =>
    intro ft
    rw [calculateIndentF]
    by_cases hlast : findLastCodeCharIdx ft = -1
    · simp [hlast]
    · simp only [hlast, if_false]
      by_cases hu : findUnmatchedDelimiterInLine ft (findLastCodeCharIdx ft)
          (getLineStart ft.text (findLastCodeCharIdx ft)) = -1
      · simp [hu]
      · simp only [hu, ne_eq, not_false_eq_true, if_true]
        by_cases hop : isOpenDelimiter (charAt ft.text (findUnmatchedDelimiterInLine ft
            (findLastCodeCharIdx ft) (getLineStart ft.text (findLastCodeCharIdx ft)))) = true
        · simp only [hop, if_true, Option.getD_some]
          exact formIndentation_nonneg hop
        · simp only [hop, if_false]
          by_cases hcl : isCloseDelimiter (charAt ft.text (findUnmatchedDelimiterInLine ft
              (findLastCodeCharIdx ft) (getLineStart ft.text (findLastCodeCharIdx ft)))) = true
          · simp only [hcl, if_true]
            by_cases hmo : findOpenDelimiter ft (findUnmatchedDelimiterInLine ft
                (findLastCodeCharIdx ft) (getLineStart ft.text (findLastCodeCharIdx ft)) - 1) = -1
            · simp [hmo]
            · simp only [hmo, ne_eq, not_false_eq_true, if_true, Option.getD_some]
              exact ih _
          · simp [hcl]

/-- C8: the top-level entry point is total over all character-sequence inputs
(it is a total function of the embedding by construction) and always returns
a non-negative integer. -/
theorem claim_C8 (pfx : List Char) : 0 ≤ calculateIndentation pfx := by
  unfold calculateIndentation
  by_cases h0 : pfx = []
  · simp [h0]
  · simp only [h0, if_false]
    by_cases h1 : inString (flagCommentsAndStrings pfx) ((pfx.length : Int) - 1) = true
    · simp [h1]
    · simp only [h1, if_false]
      exact calculateIndentF_nonneg _ _

/-! ### Stability under appending the computed indentation (C2) -/

/-- A text paired with the all-zero flag array, as produced by the classifier
on text free of quotes, backslashes and semicolons. -/
def zft (t : List Char) : FlaggedText :=
  { text := t, flags := List.replicate t.length 0 }

theorem zft_text (t : List Char) : (zft t).text = t := rfl

theorem zft_flags (t : List Char) : (zft t).flags = List.replicate t.length 0 := rfl

theorem flagAt_replicate_zero (n : Nat) (i : Int) : flagAt (List.replicate n 0) i = 0 := by
  unfold flagAt
  split
  · rfl
  · cases h : (List.replicate n (0 : Nat))[i.toNat]? with
    | none => rfl
    | some v =>
      have := List.getElem?_mem h
      have hv : v = 0 := List.eq_of_mem_replicate this
      rw [hv]
      rfl

theorem isIgnored_zft (t : List Char) (i : Int) : isIgnored (zft t) i = false := by
  simp [isIgnored, hasFlag, zft_flags, flagAt_replicate_zero]

theorem inComment_zft (t : List Char) (i : Int) : inComment (zft t) i = false := by
  simp [inComment, hasFlag, zft_flags, flagAt_replicate_zero]

theorem inString_zft (t : List Char) (i : Int) : inString (zft t) i = false := by
  simp [inString, hasFlag, zft_flags, flagAt_replicate_zero]

theorem classifyChar_plain {c : Char} (h1 : c ≠ '"') (h2 : c ≠ '\\') (h3 : c ≠ ';') :
    classifyChar initState c = (0, initState) := by
  unfold classifyChar initState
  simp [h1, h2, h3]

theorem classifyFrom_plain : ∀ (cs : List Char),
    (∀ c ∈ cs, c ≠ '"' ∧ c ≠ '\\' ∧ c ≠ ';') →
    classifyFrom initState cs = List.replicate cs.length 0 := by
  intro cs
  induction cs with
  | nil => intro _; rfl
  | cons c cs ih =>
    intro h
    obtain ⟨h1, h2, h3⟩ := h c (List.mem_cons_self _ _)
    rw [classifyFrom, classifyChar_plain h1 h2 h3]
    rw [List.length_cons, List.replicate_succ]
    rw [ih (fun d hd => h d (List.mem_cons_of_mem _ hd))]

theorem charAt_append_lt (p q : List Char) : ∀ j : Int, j < (p.length : Int) →
    charAt (p ++ q) j = charAt p j := by
  intro j h
  by_cases h0 : j < 0
  · rw [charAt_neg h0, charAt_neg h0]
  · unfold charAt
    rw [if_neg h0, if_neg h0, List.getElem?_append, if_pos (by omega : j.toNat < p.length)]

theorem charAt_append_right {p q : List Char} {i : Int} (h : (p.length : Int) ≤ i) :
    charAt (p ++ q) i = charAt q (i - (p.length : Int)) := by
  unfold charAt
  rw [if_neg (by omega), if_neg (by omega)]
  rw [List.getElem?_append_right (by omega : p.length ≤ i.toNat)]
  congr 1
  omega

theorem apChar_ws (k : Nat) (j : Int) (h0 : 0 ≤ j) (h1 : j < (k : Int) + 1) :
    isWhitespace (charAt ('\n' :: List.replicate k ' ') j) = true := by
  by_cases hz : j = 0
  · rw [hz]
    simp [charAt, isWhitespace]
  · unfold charAt
    rw [if_neg (by omega)]
    obtain ⟨m, hm⟩ : ∃ m : Nat, j.toNat = m + 1 := ⟨j.toNat - 1, by omega⟩
    rw [hm, List.getElem?_cons_succ, List.getElem?_replicate]
    rw [if_pos (by omega)]
    decide

theorem findNewlineDown_congr (t1 t2 : List Char) : ∀ n : Nat,
    (∀ j : Nat, j ≤ n → charAt t1 (j : Int) = charAt t2 (j : Int)) →
    findNewlineDown t1 n = findNewlineDown t2 n := by
  intro n
  induction n with
  | zero =>
    intro h
    have h0 := h 0 (le_refl _)
    push_cast at h0
    rw [findNewlineDown, findNewlineDown, h0]
  | succ n ih =>
    intro h
    rw [findNewlineDown, findNewlineDown]
    have hn := h (n + 1) (le_refl _)
    push_cast at hn
    rw [hn, ih (fun j hj => h j (by omega))]

theorem getLineStart_append {p q : List Char} {i : Int} (h0 : 0 ≤ i)
    (hi : i < (p.length : Int)) : getLineStart (p ++ q) i = getLineStart p i := by
  unfold getLineStart lastIndexOfNewline
  have hp : ¬p.length = 0 := by omega
  have hpq : ¬(p ++ q).length = 0 := by
    rw [List.length_append]
    omega
  rw [if_neg hp, if_neg hpq]
  have e1 : (min (max i 0) (((p ++ q).length : Int) - 1)).toNat = i.toNat := by
    rw [List.length_append]
    push_cast
    omega
  have e2 : (min (max i 0) ((p.length : Int) - 1)).toNat = i.toNat := by omega
  rw [e1, e2]
  rw [findNewlineDown_congr (p ++ q) p i.toNat
    (fun j hj => charAt_append_lt p q (j : Int) (by omega))]

theorem listSlice_append_left {p q : List Char} {a b : Int} (hb : b ≤ (p.length : Int)) :
    listSlice (p ++ q) a b = listSlice p a b := by
  unfold listSlice
  rw [List.take_append_of_le_length (by omega)]

theorem scanGo_nomatch_inv {σ : Type} (ft : FlaggedText) (skip : FlaggedText → Int → Bool)
    (matchFn : Option Char → Int → σ → Bool × σ) (P : σ → Prop) :
    ∀ (L : List Int),
      (∀ i ∈ L, skip ft i = true ∨
        ∀ s : σ, P s → matchFn (charAt ft.text i) i s = (false, s)) →
      ∀ s : σ, P s → scanGo ft skip matchFn L s = (-1, s) := by
  intro L
  induction L with
  | nil => intro _ s _; rfl
  | cons i is ih =>
    intro h s hs
    rw [scanGo]
    rcases h i (List.mem_cons_self _ _) with hsk | hm
    · rw [if_pos hsk]
      exact ih (fun j hj => h j (List.mem_cons_of_mem _ hj)) s hs
    · by_cases hsk : skip ft i
      · rw [if_pos hsk]
        exact ih (fun j hj => h j (List.mem_cons_of_mem _ hj)) s hs
      · rw [if_neg hsk, hm s hs]
        simp only [if_neg Bool.false_ne_true]
        exact ih (fun j hj => h j (List.mem_cons_of_mem _ hj)) s hs

theorem scanGo_nomatch_last {σ : Type} (ft : FlaggedText) (skip : FlaggedText → Int → Bool)
    (matchFn : Option Char → Int → σ → Bool × σ) :
    ∀ (L : List Int) (j : Int) (s : σ),
      (∀ i ∈ L ++ [j], skip ft i = false) → j ≠ -1 → (∀ i ∈ L, i ≠ -1) →
      (scanGo ft skip matchFn (L ++ [j]) s).1 = -1 →
      ∃ s0 : σ, matchFn (charAt ft.text j) j s0 =
        (false, (scanGo ft skip matchFn (L ++ [j]) s).2) := by
  intro L
  induction L with
  | nil =>
    intro j s hsk hj _ hres
    have hskj : skip ft j = false := hsk j (by simp)
    simp only [List.nil_append] at hres ⊢
    rw [scanGo, if_neg (by simp [hskj])] at hres ⊢
    by_cases hm : (matchFn (charAt ft.text j) j s).1 = true
    · rw [if_pos hm] at hres
      exact absurd hres hj
    · rw [if_neg hm] at hres ⊢
      refine ⟨s, ?_⟩
      simp only [scanGo]
      rw [Prod.ext_iff]
      exact ⟨by simpa using hm, rfl⟩
  | cons i L ih =>
    intro j s hsk hj hmem hres
    have hski : skip ft i = false := hsk i (by simp)
    rw [List.cons_append, scanGo, if_neg (by simp [hski])] at hres ⊢
    by_cases hm : (matchFn (charAt ft.text i) i s).1 = true
    · rw [if_pos hm] at hres
      exact absurd hres (hmem i (by simp))
    · rw [if_neg hm] at hres ⊢
      exact ih j (matchFn (charAt ft.text i) i s).2
        (fun x hx => hsk x (List.mem_cons_of_mem _ hx)) hj
        (fun x hx => hmem x (List.mem_cons_of_mem _ hx)) hres

theorem intRange_single (b : Int) : intRange b b = [b] := by
  unfold intRange
  have : (b - b + 1).toNat = 1 := by omega
  rw [this, show List.range 1 = [0] from rfl]
  simp

theorem intRange_split_last {a b : Int} (h : a ≤ b) :
    intRange a b = intRange a (b - 1) ++ [b] := by
  have he := intRange_append (a := a) (b := b - 1) (c := b) (by omega) (by omega)
  rw [he]
  congr 1
  rw [show b - 1 + 1 = b by omega, intRange_single]

theorem fUDIL_good (ft : FlaggedText) (index limit : Int)
    (h : findUnmatchedDelimiterInLine ft index limit ≠ -1) :
    isIgnored ft (findUnmatchedDelimiterInLine ft index limit) = false ∧
    (isOpenDelimiter (charAt ft.text (findUnmatchedDelimiterInLine ft index limit)) = true ∨
     isCloseDelimiter (charAt ft.text (findUnmatchedDelimiterInLine ft index limit)) = true) := by
  have hspec := udScanGo_spec ft (scanIdxs index limit) (-1, -1, 0) (Or.inl rfl)
  unfold findUnmatchedDelimiterInLine scan at h ⊢
  by_cases hr : (scanGo ft isIgnored udMatch (scanIdxs index limit) (-1, -1, 0)).1 = -1
  · simp only [hr, ne_eq, not_true_eq_false, if_false] at h ⊢
    rcases hspec.2 hr with hc | hc
    · exact absurd hc h
    · exact hc
  · simp only [hr, ne_eq, not_false_eq_true, if_true] at h ⊢
    obtain ⟨heq, hg⟩ := hspec.1 hr
    rw [heq]
    exact hg

theorem fUDIL_bounds (ft : FlaggedText) (index limit : Int)
    (h : findUnmatchedDelimiterInLine ft index limit ≠ -1) :
    0 ≤ findUnmatchedDelimiterInLine ft index limit ∧
      findUnmatchedDelimiterInLine ft index limit < (ft.text.length : Int) := by
  rcases (fUDIL_good ft index limit h).2 with hd | hd
  · exact isOpenDelimiter_bounds hd
  · exact isCloseDelimiter_bounds hd

theorem fUDIL_congr0 (t1 t2 : List Char) (index limit : Int)
    (hch : ∀ j ∈ scanIdxs index limit, charAt t1 j = charAt t2 j) :
    findUnmatchedDelimiterInLine (zft t1) index limit =
      findUnmatchedDelimiterInLine (zft t2) index limit := by
  unfold findUnmatchedDelimiterInLine scan
  rw [scanGo_congr (zft t1) (zft t2) isIgnored isIgnored udMatch udMatch _
    (fun i _ => by rw [isIgnored_zft, isIgnored_zft])
    (fun i hi _ s => by rw [zft_text, zft_text, hch i hi]) _]

theorem fod_congr0 (t1 t2 : List Char) (index limit : Int)
    (hch : ∀ j ∈ scanIdxs index limit, charAt t1 j = charAt t2 j) :
    findOpenDelimiter (zft t1) index limit = findOpenDelimiter (zft t2) index limit := by
  unfold findOpenDelimiter scan
  rw [scanGo_congr (zft t1) (zft t2) isIgnored isIgnored fodMatch fodMatch _
    (fun i _ => by rw [isIgnored_zft, isIgnored_zft])
    (fun i hi _ s => by rw [zft_text, zft_text, hch i hi]) _]

theorem findLastCode_append (p : List Char) (k : Nat) (hp : p ≠ []) :
    findLastCodeCharIdx (zft (p ++ '\n' :: List.replicate k ' ')) =
      findLastCodeCharIdx (zft p) := by
  have hL : 1 ≤ p.length := List.length_pos.mpr hp
  have hlen : ((p ++ '\n' :: List.replicate k ' ').length : Int) =
      (p.length : Int) + ((k : Int) + 1) := by
    push_cast [List.length_append, List.length_cons, List.length_replicate]
    omega
  unfold findLastCodeCharIdx scanP scan
  rw [zft_text, zft_text]
  beta_reduce
  have hsplit : scanIdxs (((p ++ '\n' :: List.replicate k ' ').length : Int) - 1) 0 =
      (intRange (p.length : Int) (((p ++ '\n' :: List.replicate k ' ').length : Int) - 1)).reverse
        ++ scanIdxs ((p.length : Int) - 1) 0 := by
    unfold scanIdxs
    rw [if_neg (by omega), if_neg (by omega)]
    rw [intRange_append (a := 0) (b := (p.length : Int) - 1)
      (c := ((p ++ '\n' :: List.replicate k ' ').length : Int) - 1) (by omega) (by omega)]
    rw [List.reverse_append, show (p.length : Int) - 1 + 1 = (p.length : Int) from by omega]
  rw [hsplit]
  have hnA : (-1 : Int) ∉ (intRange (p.length : Int)
      (((p ++ '\n' :: List.replicate k ' ').length : Int) - 1)).reverse := by
    intro hc
    rw [List.mem_reverse] at hc
    have := intRange_mem hc
    omega
  have hA : scanGo (zft (p ++ '\n' :: List.replicate k ' ')) isIgnored
      (fun c i (_ : Unit) => (notWhitespace c, ()))
      ((intRange (p.length : Int)
        (((p ++ '\n' :: List.replicate k ' ').length : Int) - 1)).reverse) () = (-1, ()) := by
    apply scanGo_nomatch
    intro i hi
    right
    intro s
    rw [List.mem_reverse] at hi
    have hb := intRange_mem hi
    have hws : isWhitespace (charAt ((zft (p ++ '\n' :: List.replicate k ' ')).text) i) = true := by
      rw [zft_text, charAt_append_right (by omega)]
      exact apChar_ws k _ (by omega) (by omega)
    cases s
    simp [notWhitespace, hws]
  rw [scanGo_append _ _ _ _ _ hnA (), hA]
  simp only [if_pos rfl]
  rw [scanGo_congr (zft (p ++ '\n' :: List.replicate k ' ')) (zft p) isIgnored isIgnored
    (fun c i (_ : Unit) => (notWhitespace c, ())) (fun c i (_ : Unit) => (notWhitespace c, ()))
    (scanIdxs ((p.length : Int) - 1) 0)
    (fun i _ => by rw [isIgnored_zft, isIgnored_zft])
    (fun i hi _ s => by
      have hb := scanIdxs_mem hi
      rw [zft_text, zft_text, charAt_append_lt p _ i (by omega)]) ()]
  simp

theorem scanIdxs_of_le {a b : Int} (h : a ≤ b) : scanIdxs a b = intRange a b := by
  unfold scanIdxs
  by_cases hf : a < b
  · rw [if_pos hf]
  · rw [if_neg hf]
    have hab : a = b := by omega
    subst hab
    rw [intRange_single]
    rfl

theorem ap_length (p : List Char) (k : Nat) :
    ((p ++ '\n' :: List.replicate k ' ').length : Int) = (p.length : Int) + ((k : Int) + 1) := by
  push_cast [List.length_append, List.length_cons, List.length_replicate]
  omega

theorem sSAC_append (p : List Char) (k : Nat) (a : Int) (h0 : 0 ≤ a) :
    skipSpaceAndComments (zft (p ++ '\n' :: List.replicate k ' ')) a =
      skipSpaceAndComments (zft p) a := by
  have hlen := ap_length p k
  have hws : ∀ i : Int, (p.length : Int) ≤ i →
      i ≤ ((p ++ '\n' :: List.replicate k ' ').length : Int) - 1 →
      isSpaceOrComment (zft (p ++ '\n' :: List.replicate k ' ')) i = true := by
    intro i hi1 hi2
    unfold isSpaceOrComment
    rw [inComment_zft, zft_text, charAt_append_right (by omega),
      apChar_ws k _ (by omega) (by omega)]
    rfl
  unfold skipSpaceAndComments
  rw [zft_text, zft_text]
  by_cases hge : a ≥ (p.length : Int)
  · rw [if_pos hge]
    by_cases hge' : a ≥ ((p ++ '\n' :: List.replicate k ' ').length : Int)
    · rw [if_pos hge']
    · rw [if_neg hge']
      unfold scanP scan
      beta_reduce
      rw [scanGo_nomatch _ _ _ _ ?_ ()]
      · intro i hi
        left
        have hb := scanIdxs_mem hi
        exact hws i (by omega) (by omega)
  · rw [if_neg (by omega), if_neg (by omega)]
    unfold scanP scan
    beta_reduce
    have hL : 1 ≤ p.length := by omega
    have hsplit : scanIdxs a (((p ++ '\n' :: List.replicate k ' ').length : Int) - 1) =
        scanIdxs a ((p.length : Int) - 1) ++
          intRange (p.length : Int) (((p ++ '\n' :: List.replicate k ' ').length : Int) - 1) := by
      rw [scanIdxs_of_le (by omega), scanIdxs_of_le (by omega),
        intRange_append (a := a) (b := (p.length : Int) - 1) (by omega) (by omega),
        show (p.length : Int) - 1 + 1 = (p.length : Int) from by omega]
    rw [hsplit]
    have hnA : (-1 : Int) ∉ scanIdxs a ((p.length : Int) - 1) := by
      intro hc
      have := scanIdxs_mem hc
      omega
    rw [scanGo_append _ _ _ _ _ hnA ()]
    have hcongr : scanGo (zft (p ++ '\n' :: List.replicate k ' ')) isSpaceOrComment
        (fun c i (_ : Unit) => (true, ())) (scanIdxs a ((p.length : Int) - 1)) () =
        scanGo (zft p) isSpaceOrComment (fun c i (_ : Unit) => (true, ()))
          (scanIdxs a ((p.length : Int) - 1)) () := by
      apply scanGo_congr
      · intro i hi
        have hb := scanIdxs_mem hi
        unfold isSpaceOrComment
        rw [inComment_zft, inComment_zft, zft_text, zft_text, charAt_append_lt p _ i (by omega)]
      · intro i hi _ s
        rfl
    rw [hcongr]
    by_cases hr : (scanGo (zft p) isSpaceOrComment (fun c i (_ : Unit) => (true, ()))
        (scanIdxs a ((p.length : Int) - 1)) ()).1 = -1
    · rw [if_pos hr, hr]
      rw [scanGo_nomatch _ _ _ _ ?_ _]
      · intro i hi
        left
        have hb := intRange_mem hi
        exact hws i (by omega) (by omega)
    · rw [if_neg hr]

theorem ws_not_delim {c : Option Char} (h : isWhitespace c = true) :
    isOpenDelimiter c = false ∧ isCloseDelimiter c = false := by
  unfold isWhitespace at h
  simp only [Bool.or_eq_true, decide_eq_true_eq] at h
  rcases h with (((h | h) | h) | h) | h <;> subst h <;> exact ⟨by decide, by decide⟩

theorem readElement_append (p : List Char) (k : Nat) (idx : Int) (h0 : 0 ≤ idx)
    (hlt : idx < (p.length : Int)) :
    readElement (zft (p ++ '\n' :: List.replicate k ' ')) idx = readElement (zft p) idx := by
  have hlen := ap_length p k
  unfold readElement scan
  rw [zft_text, zft_text, if_neg (by omega), if_neg (by omega)]
  have hsplit : scanIdxs idx (((p ++ '\n' :: List.replicate k ' ').length : Int) - 1) =
      intRange idx ((p.length : Int) - 1) ++
        intRange (p.length : Int) (((p ++ '\n' :: List.replicate k ' ').length : Int) - 1) := by
    rw [scanIdxs_of_le (by omega),
      intRange_append (a := idx) (b := (p.length : Int) - 1) (by omega) (by omega),
      show (p.length : Int) - 1 + 1 = (p.length : Int) from by omega]
  rw [hsplit, scanIdxs_of_le (by omega : idx ≤ (p.length : Int) - 1)]
  have hnA : (-1 : Int) ∉ intRange idx ((p.length : Int) - 1) := by
    intro hc
    have := intRange_mem hc
    omega
  rw [scanGo_append _ _ _ _ _ hnA 0]
  have hcongr : scanGo (zft (p ++ '\n' :: List.replicate k ' ')) isIgnored
      (isEndOfElementM (zft (p ++ '\n' :: List.replicate k ' ')))
      (intRange idx ((p.length : Int) - 1)) 0 =
      scanGo (zft p) isIgnored (isEndOfElementM (zft p))
        (intRange idx ((p.length : Int) - 1)) 0 := by
    apply scanGo_congr
    · intro i _
      rw [isIgnored_zft, isIgnored_zft]
    · intro i hi _ d
      have hb := intRange_mem hi
      have hch : charAt (p ++ '\n' :: List.replicate k ' ') i = charAt p i :=
        charAt_append_lt _ _ _ (by omega)
      unfold isEndOfElementM
      rw [zft_text, zft_text, hch]
      by_cases hieq : i = (p.length : Int) - 1
      · have hwsn : isWhitespace (charAt (p ++ '\n' :: List.replicate k ' ') (i + 1)) = true := by
          rw [charAt_append_right (by omega)]
          exact apChar_ws k _ (by omega) (by omega)
        exact if_congr (and_congr_right fun _ =>
          iff_of_true (Or.inr hwsn) (Or.inl hieq)) rfl rfl
      · have h1 : ¬(i = ((p ++ '\n' :: List.replicate k ' ').length : Int) - 1) := by omega
        have hch2 : charAt (p ++ '\n' :: List.replicate k ' ') (i + 1) = charAt p (i + 1) :=
          charAt_append_lt _ _ _ (by omega)
        rw [hch2]
        exact if_congr (and_congr_right fun _ =>
          or_congr (iff_of_false h1 hieq) Iff.rfl) rfl rfl
  rw [hcongr]
  by_cases hr : (scanGo (zft p) isIgnored (isEndOfElementM (zft p))
      (intRange idx ((p.length : Int) - 1)) 0).1 = -1
  · rw [if_pos hr, hr]
    -- the element scan failed inside `p`: the depth after the final position
    -- `p.length - 1` is at least 1, so the appended whitespace cannot end it
    have hrange : intRange idx ((p.length : Int) - 1) =
        intRange idx ((p.length : Int) - 1 - 1) ++ [(p.length : Int) - 1] :=
      intRange_split_last (by omega)
    have hlast := scanGo_nomatch_last (zft p) isIgnored (isEndOfElementM (zft p))
      (intRange idx ((p.length : Int) - 1 - 1)) ((p.length : Int) - 1)
      0 (fun i _ => isIgnored_zft p i) (by omega)
      (fun i hi => by have := intRange_mem hi; omega)
      (by rw [← hrange]; exact hr)
    rw [← hrange] at hlast
    obtain ⟨s0, hs0⟩ := hlast
    rw [zft_text] at hs0
    have hdepth : 1 ≤ (scanGo (zft p) isIgnored (isEndOfElementM (zft p))
        (intRange idx ((p.length : Int) - 1)) 0).2 := by
      have hfst : (isEndOfElementM (zft p) (charAt p ((p.length : Int) - 1))
          ((p.length : Int) - 1) s0).1 = false := by
        rw [hs0]
      have hsnd : (isEndOfElementM (zft p) (charAt p ((p.length : Int) - 1))
          ((p.length : Int) - 1) s0).2 = (scanGo (zft p) isIgnored (isEndOfElementM (zft p))
          (intRange idx ((p.length : Int) - 1)) 0).2 := by
        rw [hs0]
      rw [← hsnd]
      unfold isEndOfElementM at hfst ⊢
      rw [zft_text] at hfst ⊢
      by_cases hC : elemDepth (charAt p ((p.length : Int) - 1)) s0 = 0 ∧
          ((p.length : Int) - 1 = (p.length : Int) - 1 ∨
            isWhitespace (charAt p ((p.length : Int) - 1 + 1)) = true)
      · rw [if_pos hC] at hfst
        simp at hfst
      · rw [if_neg hC] at hfst ⊢
        have hne : ¬(elemDepth (charAt p ((p.length : Int) - 1)) s0 = 0) := by
          intro hz
          exact hC ⟨hz, Or.inl rfl⟩
        have hnn : ¬(elemDepth (charAt p ((p.length : Int) - 1)) s0 < 0) := by
          have hd : decide (elemDepth (charAt p ((p.length : Int) - 1)) s0 < 0) = false := hfst
          simpa using hd
        show 1 ≤ elemDepth (charAt p ((p.length : Int) - 1)) s0
        omega
    have hA0 := scanGo_nomatch_inv (zft (p ++ '\n' :: List.replicate k ' ')) isIgnored
      (isEndOfElementM (zft (p ++ '\n' :: List.replicate k ' '))) (fun d => 1 ≤ d)
      (intRange (p.length : Int) (((p ++ '\n' :: List.replicate k ' ').length : Int) - 1))
      (by
        intro i hi
        right
        intro s hs
        have hb := intRange_mem hi
        have hwsc : isWhitespace (charAt (p ++ '\n' :: List.replicate k ' ') i) = true := by
          rw [charAt_append_right (by omega)]
          exact apChar_ws k _ (by omega) (by omega)
        obtain ⟨hno, hnc⟩ := ws_not_delim hwsc
        unfold isEndOfElementM elemDepth
        rw [zft_text, hno, hnc]
        simp only [if_neg Bool.false_ne_true]
        rw [if_neg (by rintro ⟨hz, _⟩; omega)]
        have hdec : decide (s < 0) = false := by
          simp only [decide_eq_false_iff_not, not_lt]
          omega
        rw [hdec])
      ((scanGo (zft p) isIgnored (isEndOfElementM (zft p))
        (intRange idx ((p.length : Int) - 1)) 0).2) hdepth
    rw [hA0]
    simp [listSlice]
  · rw [if_neg hr]
    have hmem := scanGo_result (zft p) isIgnored (isEndOfElementM (zft p)) (fun _ => True)
      (fun _ _ _ => trivial) (intRange idx ((p.length : Int) - 1)) 0
    rcases hmem with h | ⟨h1, _, _⟩
    · exact absurd h hr
    · have hb := intRange_mem h1
      rw [listSlice_append_left (by omega)]

theorem formIndentation_append (p : List Char) (k : Nat) (idx : Int) (h0 : 0 ≤ idx)
    (hlt : idx < (p.length : Int)) :
    formIndentation (zft (p ++ '\n' :: List.replicate k ' ')) idx =
      formIndentation (zft p) idx := by
  have hch : charAt (p ++ '\n' :: List.replicate k ' ') idx = charAt p idx :=
    charAt_append_lt _ _ _ hlt
  have hls : getLineStart (p ++ '\n' :: List.replicate k ' ') idx = getLineStart p idx :=
    getLineStart_append h0 hlt
  have hcol : getColumn (p ++ '\n' :: List.replicate k ' ') idx = getColumn p idx := by
    unfold getColumn
    rw [hls]
  rw [formIndentation, formIndentation]
  simp only [zft_text]
  rw [hch, hcol]
  by_cases hpc : charAt p idx = some '('
  · rw [if_pos hpc, if_pos hpc, sSAC_append p k (idx + 1) (by omega)]
    by_cases hfe : skipSpaceAndComments (zft p) (idx + 1) = -1
    · rw [if_pos hfe, if_pos hfe]
    · rw [if_neg hfe, if_neg hfe]
      have hfeb : 0 ≤ skipSpaceAndComments (zft p) (idx + 1) ∧
          skipSpaceAndComments (zft p) (idx + 1) < (p.length : Int) := by
        rcases skipSpaceAndComments_spec (zft p) (idx + 1) (by omega) with h | ⟨ha, hb, _⟩
        · exact absurd h hfe
        · rw [zft_text] at hb
          exact ⟨ha, hb⟩
      rw [readElement_append p k _ hfeb.1 hfeb.2]
      by_cases hbody : BODY_FORMS.contains (String.mk (readElement (zft p)
          (skipSpaceAndComments (zft p) (idx + 1)))) = true
      · rw [if_pos hbody, if_pos hbody]
      · rw [if_neg hbody, if_neg hbody,
          sSAC_append p k (skipSpaceAndComments (zft p) (idx + 1) +
            ((readElement (zft p) (skipSpaceAndComments (zft p) (idx + 1))).length : Int))
            (by have := hfeb.1; positivity)]
        by_cases hfa : skipSpaceAndComments (zft p) (skipSpaceAndComments (zft p) (idx + 1) +
            ((readElement (zft p) (skipSpaceAndComments (zft p) (idx + 1))).length : Int)) = -1
        · rw [if_neg (by simpa using hfa), if_neg (by simpa using hfa)]
        · rw [if_pos hfa, if_pos hfa]
          have hfab : 0 ≤ skipSpaceAndComments (zft p) (skipSpaceAndComments (zft p) (idx + 1) +
              ((readElement (zft p) (skipSpaceAndComments (zft p) (idx + 1))).length : Int)) ∧
              skipSpaceAndComments (zft p) (skipSpaceAndComments (zft p) (idx + 1) +
                ((readElement (zft p) (skipSpaceAndComments (zft p) (idx + 1))).length : Int)) <
                (p.length : Int) := by
            rcases skipSpaceAndComments_spec (zft p) (skipSpaceAndComments (zft p) (idx + 1) +
                ((readElement (zft p) (skipSpaceAndComments (zft p) (idx + 1))).length : Int))
                (by have := hfeb.1; positivity) with h | ⟨ha, hb, _⟩
            · exact absurd h hfa
            · rw [zft_text] at hb
              exact ⟨ha, hb⟩
          have hlsfa : getLineStart (p ++ '\n' :: List.replicate k ' ')
              (skipSpaceAndComments (zft p) (skipSpaceAndComments (zft p) (idx + 1) +
                ((readElement (zft p) (skipSpaceAndComments (zft p) (idx + 1))).length : Int))) =
              getLineStart p (skipSpaceAndComments (zft p) (skipSpaceAndComments (zft p) (idx + 1) +
                ((readElement (zft p) (skipSpaceAndComments (zft p) (idx + 1))).length : Int))) :=
            getLineStart_append hfab.1 hfab.2
          rw [hlsfa, hls]
          by_cases hline : getLineStart p (skipSpaceAndComments (zft p)
              (skipSpaceAndComments (zft p) (idx + 1) +
                ((readElement (zft p) (skipSpaceAndComments (zft p) (idx + 1))).length : Int))) =
              getLineStart p idx
          · rw [if_pos hline, if_pos hline]
            unfold getColumn
            rw [hlsfa]
          · rw [if_neg hline, if_neg hline]
  · rw [if_neg hpc, if_neg hpc]

theorem calculateIndentF_flagExt : ∀ (f : Nat) (t : List Char) (F1 F2 : List Nat),
    (∀ i : Int, flagAt F1 i = flagAt F2 i) →
    calculateIndentF f ⟨t, F1⟩ = calculateIndentF f ⟨t, F2⟩ := by
  intro f
  induction f with
  | zero => intro t F1 F2 _; rfl
  | succ f ih =>
    intro t F1 F2 hf
    have hign : ∀ i, isIgnored ⟨t, F1⟩ i = isIgnored ⟨t, F2⟩ i := by
      intro i
      simp [isIgnored, hasFlag, hf i]
    have hsoc : ∀ i, isSpaceOrComment ⟨t, F1⟩ i = isSpaceOrComment ⟨t, F2⟩ i := by
      intro i
      simp [isSpaceOrComment, inComment, hasFlag, hf i]
    have hlast : findLastCodeCharIdx ⟨t, F1⟩ = findLastCodeCharIdx ⟨t, F2⟩ := by
      unfold findLastCodeCharIdx scanP scan
      rw [scanGo_congr ⟨t, F1⟩ ⟨t, F2⟩ isIgnored isIgnored _ _ _ (fun i _ => hign i)
        (fun i _ _ s => rfl) ()]
    have hud : ∀ idx limit, findUnmatchedDelimiterInLine ⟨t, F1⟩ idx limit =
        findUnmatchedDelimiterInLine ⟨t, F2⟩ idx limit := by
      intro idx limit
      unfold findUnmatchedDelimiterInLine scan
      rw [scanGo_congr ⟨t, F1⟩ ⟨t, F2⟩ isIgnored isIgnored udMatch udMatch _
        (fun i _ => hign i) (fun i _ _ s => rfl) _]
    have hfod : ∀ idx limit, findOpenDelimiter ⟨t, F1⟩ idx limit =
        findOpenDelimiter ⟨t, F2⟩ idx limit := by
      intro idx limit
      unfold findOpenDelimiter scan
      rw [scanGo_congr ⟨t, F1⟩ ⟨t, F2⟩ isIgnored isIgnored fodMatch fodMatch _
        (fun i _ => hign i) (fun i _ _ s => rfl) _]
    have hsc : ∀ idx, skipSpaceAndComments ⟨t, F1⟩ idx = skipSpaceAndComments ⟨t, F2⟩ idx := by
      intro idx
      unfold skipSpaceAndComments scanP scan
      by_cases hg : idx ≥ (t.length : Int)
      · rw [if_pos hg, if_pos hg]
      · rw [if_neg hg, if_neg hg]
        rw [scanGo_congr ⟨t, F1⟩ ⟨t, F2⟩ isSpaceOrComment isSpaceOrComment _ _ _
          (fun i _ => hsoc i) (fun i _ _ s => rfl) ()]
    have hre : ∀ idx, readElement ⟨t, F1⟩ idx = readElement ⟨t, F2⟩ idx := by
      intro idx
      unfold readElement scan
      by_cases hg : idx ≥ (t.length : Int)
      · rw [if_pos hg, if_pos hg]
      · rw [if_neg hg, if_neg hg]
        rw [scanGo_congr ⟨t, F1⟩ ⟨t, F2⟩ isIgnored isIgnored (isEndOfElementM ⟨t, F1⟩)
          (isEndOfElementM ⟨t, F2⟩) _ (fun i _ => hign i) (fun i _ _ s => rfl) 0]
    have hform : ∀ idx, formIndentation ⟨t, F1⟩ idx = formIndentation ⟨t, F2⟩ idx := by
      intro idx
      rw [formIndentation, formIndentation]
      simp only [hsc, hre]
    have hrec : ∀ m : Int, calculateIndentF f ⟨listSlice t 0 m ++ ['$'], F1⟩ =
        calculateIndentF f ⟨listSlice t 0 m ++ ['$'], F2⟩ :=
      fun m => ih _ F1 F2 hf
    rw [calculateIndentF, calculateIndentF]
    simp only [hlast, hud, hfod, hform, hsc, hre, hrec]

theorem calculateIndent_append (p : List Char) (k : Nat) (hp : p ≠ []) :
    calculateIndent (zft (p ++ '\n' :: List.replicate k ' ')) = calculateIndent (zft p) := by
  have hL : 1 ≤ p.length := List.length_pos.mpr hp
  unfold calculateIndent
  simp only [zft_text]
  rw [calculateIndentF, calculateIndentF]
  simp only [zft_text]
  rw [findLastCode_append p k hp]
  by_cases hlast : findLastCodeCharIdx (zft p) = -1
  · simp [hlast]
  · simp only [hlast, if_false]
    obtain ⟨⟨hli0, hli1⟩, -, hnw⟩ := findLastCodeCharIdx_bounds hlast
    rw [zft_text] at hli1 hnw
    set li := findLastCodeCharIdx (zft p) with hliEq
    have hne : charAt p li ≠ some '\n' := by
      intro hc
      rw [hc] at hnw
      exact absurd hnw (by decide)
    have hlsle : getLineStart p li ≤ li := getLineStart_le hli0 hne
    have hls0 : 0 ≤ getLineStart p li := getLineStart_nonneg p li
    rw [getLineStart_append hli0 hli1]
    have hudc : findUnmatchedDelimiterInLine (zft (p ++ '\n' :: List.replicate k ' ')) li
        (getLineStart p li) = findUnmatchedDelimiterInLine (zft p) li (getLineStart p li) :=
      fUDIL_congr0 (p ++ '\n' :: List.replicate k ' ') p li (getLineStart p li)
        (fun j hj => charAt_append_lt p ('\n' :: List.replicate k ' ') j (by
          have hb := scanIdxs_mem hj
          omega))
    rw [hudc]
    set u := findUnmatchedDelimiterInLine (zft p) li (getLineStart p li) with huEq
    have hslice : listSlice (p ++ '\n' :: List.replicate k ' ') (getLineStart p li) (li + 1) =
        listSlice p (getLineStart p li) (li + 1) := listSlice_append_left (by omega)
    by_cases hu : u = -1
    · simp [hu]
      rw [hslice]
    · simp only [hu, ne_eq, not_false_eq_true, if_true]
      have hub := fUDIL_bounds (zft p) li (getLineStart p li) hu
      rw [← huEq, zft_text] at hub
      have hchu : charAt (p ++ '\n' :: List.replicate k ' ') u = charAt p u :=
        charAt_append_lt p ('\n' :: List.replicate k ' ') u (by omega)
      rw [hchu]
      by_cases hop : isOpenDelimiter (charAt p u) = true
      · simp [hop]
        exact formIndentation_append p k u hub.1 hub.2
      · simp only [hop, if_false]
        by_cases hcl : isCloseDelimiter (charAt p u) = true
        · simp only [hcl, if_true]
          have hmc : findOpenDelimiter (zft (p ++ '\n' :: List.replicate k ' ')) (u - 1) 0 =
              findOpenDelimiter (zft p) (u - 1) 0 :=
            fod_congr0 (p ++ '\n' :: List.replicate k ' ') p (u - 1) 0
              (fun j hj => charAt_append_lt p ('\n' :: List.replicate k ' ') j (by
                have hb := scanIdxs_mem hj
                omega))
          rw [hmc]
          set m := findOpenDelimiter (zft p) (u - 1) 0 with hmEq
          by_cases hmo : m = -1
          · simp [hmo]
            rw [hslice]
          · simp only [hmo, ne_eq, not_false_eq_true, if_true, Option.getD_some]
            have hclz : isCloseDelimiter (charAt (zft p).text u) = true := by
              rw [zft_text]
              exact hcl
            obtain ⟨hm0, hmu, hm2⟩ := dedent_shrinks hclz hmEq.symm hmo
            rw [zft_text] at hm2
            have hsl2 : listSlice (p ++ '\n' :: List.replicate k ' ') 0 m = listSlice p 0 m :=
              listSlice_append_left (by omega)
            have hflags : ∀ i : Int, flagAt ((zft (p ++ '\n' :: List.replicate k ' ')).flags) i =
                flagAt ((zft p).flags) i := fun i => by
              rw [zft_flags, zft_flags, flagAt_replicate_zero, flagAt_replicate_zero]
            rw [hsl2, calculateIndentF_flagExt (p ++ '\n' :: List.replicate k ' ').length
              (listSlice p 0 m ++ ['$']) ((zft (p ++ '\n' :: List.replicate k ' ')).flags)
              ((zft p).flags) hflags]
            have hslen : (listSlice p 0 m ++ ['$']).length = m.toNat + 1 :=
              trunc_length hm0 (by omega)
            exact calculateIndentF_fuel_congr (listSlice p 0 m ++ ['$']).length
              ⟨listSlice p 0 m ++ ['$'], (zft p).flags⟩ le_rfl
              (p ++ '\n' :: List.replicate k ' ').length p.length
              (by
                simp only [hslen, List.length_append, List.length_cons, List.length_replicate]
                omega)
              (by
                simp only [hslen]
                omega)
        · simp [hop, hcl]
          rw [hslice]

/-- C2 (amended): stability holds for every prefix free of double quotes,
backslashes and semicolons.  For such a prefix the classifier assigns no
flags, and appending a newline plus the computed indentation (indeed any
number of spaces) leaves every search of the algorithm unchanged, so
recomputing yields the same column. -/
theorem claim_C2 (pfx : List Char)
    (hplain : ∀ c ∈ pfx, c ≠ '"' ∧ c ≠ '\\' ∧ c ≠ ';') :
    calculateIndentation (pfx ++ '\n' :: List.replicate (calculateIndentation pfx).toNat ' ') =
      calculateIndentation pfx := by
  by_cases hp : pfx = []
  · subst hp
    decide
  · generalize (calculateIndentation pfx).toNat = K
    have hplain2 : ∀ c ∈ pfx ++ '\n' :: List.replicate K ' ',
        c ≠ '"' ∧ c ≠ '\\' ∧ c ≠ ';' := by
      intro c hc
      rcases List.mem_append.mp hc with h | h
      · exact hplain c h
      · rcases List.mem_cons.mp h with rfl | h
        · exact ⟨by decide, by decide, by decide⟩
        · have hc' := List.eq_of_mem_replicate h
          subst hc'
          exact ⟨by decide, by decide, by decide⟩
    have hzp : flagCommentsAndStrings pfx = zft pfx := by
      unfold flagCommentsAndStrings zft
      rw [classifyFrom_plain pfx hplain]
    have hzap : flagCommentsAndStrings (pfx ++ '\n' :: List.replicate K ' ') =
        zft (pfx ++ '\n' :: List.replicate K ' ') := by
      unfold flagCommentsAndStrings zft
      rw [classifyFrom_plain _ hplain2]
    have hapne : pfx ++ '\n' :: List.replicate K ' ' ≠ [] := by simp
    rw [calculateIndentation_eq_calculateIndent hapne (by rw [hzap]; exact inString_zft _ _),
      calculateIndentation_eq_calculateIndent hp (by rw [hzp]; exact inString_zft _ _),
      hzap, hzp]
    exact calculateIndent_append pfx K hp

/-- C2 counterexample: for the prefix `"(  ab;c"`, whose last line ends in a
line comment, the computed indentation is 3, but inserting a newline plus
3 spaces and recomputing yields 1, so the unrestricted stability claim
fails. -/
theorem claim_C2_counterexample :
    calculateIndentation ("(  ab;c".toList ++
        '\n' :: List.replicate (calculateIndentation ("(  ab;c".toList)).toNat ' ') ≠
      calculateIndentation ("(  ab;c".toList) := by
  decide

/-- C2 witness: the prefix `"(foo bar "` contains no double quote, backslash
or semicolon, and its indentation 5 is stable under inserting a newline plus
5 spaces. -/
theorem claim_C2_witness :
    calculateIndentation ("(foo bar ".toList ++
        '\n' :: List.replicate (calculateIndentation ("(foo bar ".toList)).toNat ' ') =
      calculateIndentation ("(foo bar ".toList) :=
  claim_C2 ("(foo bar ".toList) (by decide)
